import Mathlib

/-! # factorio-auto-update: a shallow embedding of `main.go`

Go strings are modelled as lists of characters, byte slices as lists of
naturals; the string functions used here (`path.Ext`, `strings.ReplaceAll`,
`strings.Split`, with ASCII patterns) act on a valid UTF-8 string the same way
whether it is read byte by byte or character by character.  Calls that leave
the program (directory listing, HTTP, the file
system, sub-processes, the webhook, the SHA-1 digest and the `go-version`
library) are taken as parameters: an environment of oracles whose answers may
depend on the history of calls made so far.  The functions of `main.go` are
written out over that environment with the world (file system and call
history) passed explicitly.
-/

namespace FactorioAutoUpdate

/-! ## Strings -/

/-- Go `string`, as the list of its characters. -/
abbrev GoString := List Char

/-- Go `[]byte`. -/
abbrev Bytes := List Nat

/-- Backwards loop of `path.Ext`: the first argument is the path read from its
end, the second the characters already passed (in path order). -/
def extLoop : List Char → List Char → GoString
  | [], _ => []
  | c :: rest, acc =>
    if c = '/' then []
    else if c = '.' then '.' :: acc
    else extLoop rest (c :: acc)

/-- Go `path.Ext`: the suffix beginning at the final dot in the final
slash-separated element of the path, empty if there is no dot. -/
def pathExt (p : GoString) : GoString := extLoop p.reverse []

/-- Scan of `strings.Replace` for a non-empty `old`: the counter is the number
of characters of the current match still to be skipped. -/
def replaceLoop (old new : GoString) : Nat → GoString → GoString
  | _, [] => []
  | k + 1, _ :: t => replaceLoop old new k t
  | 0, c :: t =>
    if old.isPrefixOf (c :: t) then new ++ replaceLoop old new (old.length - 1) t
    else c :: replaceLoop old new 0 t

/-- Go `strings.ReplaceAll`: every non-overlapping occurrence of `old`, found
from the left, is replaced by `new`; an empty `old` matches before every
character and at the end. -/
def stringsReplaceAll (s old new : GoString) : GoString :=
  if old = new then s
  else if old = [] then new ++ s.flatMap (fun c => c :: new)
  else replaceLoop old new 0 s

/-- Scan of `strings.Split` for a non-empty separator: the counter is the
number of separator characters still to be skipped, the second argument the
current piece read so far, reversed. -/
def splitLoop (sep : GoString) : Nat → List Char → GoString → List GoString
  | _, cur, [] => [cur.reverse]
  | k + 1, cur, _ :: t => splitLoop sep k cur t
  | 0, cur, c :: t =>
    if sep.isPrefixOf (c :: t) then cur.reverse :: splitLoop sep (sep.length - 1) [] t
    else splitLoop sep 0 (c :: cur) t

/-- Go `strings.Split`: the pieces of `s` between the occurrences of `sep`; an
empty separator explodes the string into its characters. -/
def stringsSplit (s sep : GoString) : List GoString :=
  if sep = [] then s.map (fun c => [c])
  else splitLoop sep 0 [] s

/-! ## Data model -/

/-- Release is releases of mods. -/
structure Release where
  DownloadURL : GoString
  FileName : GoString
  Version : GoString
  Sha1 : GoString
  deriving DecidableEq

/-- Mod is a mod on server. -/
structure Mod where
  Title : GoString
  Name : GoString
  Releases : List Release
  deriving DecidableEq

/-- ModResult is result of factorio mod portal api. -/
structure ModResult where
  Results : List Mod
  deriving DecidableEq

/-- LocalMod is struct for local mods. -/
structure LocalMod where
  Name : GoString
  FileName : GoString
  Version : GoString
  deriving DecidableEq

/-- Go `error` values, by their message. -/
abbrev GoError := GoString

/-- What a Go panic carries: the argument of an explicit `panic(err)` (which
may be the nil error), or the run-time error of an index out of range. -/
inductive PanicValue where
  | err (e : Option GoError)
  | indexOutOfRange (index : Int) (len : Nat)
  deriving DecidableEq

instance instDecidableEqExcept {ε α : Type} [DecidableEq ε] [DecidableEq α] :
    DecidableEq (Except ε α)
  | .ok a, .ok b => if h : a = b then isTrue (by rw [h]) else isFalse (fun h2 => h (Except.ok.inj h2))
  | .error a, .error b =>
    if h : a = b then isTrue (by rw [h]) else isFalse (fun h2 => h (Except.error.inj h2))
  | .ok _, .error _ => isFalse (fun h => Except.noConfusion h)
  | .error _, .ok _ => isFalse (fun h => Except.noConfusion h)

/-- Go slice indexing `xs[i]` with a signed index: panics out of range. -/
def sliceIndex {α : Type} (xs : List α) (i : Int) : Except PanicValue α :=
  if i < 0 then .error (.indexOutOfRange i xs.length)
  else match xs.get? i.toNat with
    | some x => .ok x
    | none => .error (.indexOutOfRange i xs.length)

/-- Go `map[string]*T`, as an association list with at most one entry per key. -/
abbrev GoMap (α : Type) := List (GoString × α)

/-- Read `m[k]` with the comma-ok form. -/
def mapGet {α : Type} (m : GoMap α) (k : GoString) : Option α :=
  match m with
  | [] => none
  | (k', a) :: rest => if k' = k then some a else mapGet rest k

/-- Assign `m[k] = a`: replaces the entry of `k` when there is one. -/
def mapSet {α : Type} (m : GoMap α) (k : GoString) (a : α) : GoMap α :=
  match m with
  | [] => [(k, a)]
  | (k', a') :: rest => if k' = k then (k, a) :: rest else (k', a') :: mapSet rest k a

/-! ## Searching local mods (`main`, lines 86-100) -/

/-- Body of the loop over the directory entries, for the entry named `name`. -/
def scanEntry (localMods : GoMap LocalMod) (name : GoString) :
    Except PanicValue (GoMap LocalMod) :=
  let ext := pathExt name
  if ext = ".zip".toList then
    let base := stringsReplaceAll name ext []
    let splitted := stringsSplit base "_".toList
    match sliceIndex splitted 0 with
    | .error p => .error p
    | .ok modName =>
      match sliceIndex splitted 1 with
      | .error p => .error p
      | .ok version =>
        .ok (mapSet localMods modName
          { Name := modName, FileName := name, Version := version })
  else .ok localMods

/-- The loop over the directory entries, from a given map. -/
def scanLoop (localMods : GoMap LocalMod) : List GoString → Except PanicValue (GoMap LocalMod)
  | [] => .ok localMods
  | name :: rest =>
    match scanEntry localMods name with
    | .error p => .error p
    | .ok m => scanLoop m rest

/-- The local-mod mapping built from the directory listing. -/
def scanLocalMods (files : List GoString) : Except PanicValue (GoMap LocalMod) :=
  scanLoop [] files

/-! ## Paths (`path/filepath` on Unix) -/

/-- The `..` case of `filepath.Clean` when it can backtrack: the output buffer
(held reversed) loses its last element and the separator before it, never
going below `dotdot`. -/
def cleanBacktrack (dotdot : Nat) : List Char → List Char
  | [] => []
  | c :: t => if t.length > dotdot ∧ c ≠ '/' then cleanBacktrack dotdot t else t

/-- Main loop of `filepath.Clean`: the rest of the path, the output buffer
(reversed) and the index `dotdot`; every round consumes at least one
character, so the length of the path is enough fuel. -/
def cleanLoop (rooted : Bool) : Nat → List Char → List Char → Nat → List Char
  | 0, _, o, _ => o
  | fuel + 1, p, o, dotdot =>
    match p with
    | [] => o
    | c :: t =>
      if c = '/' then cleanLoop rooted fuel t o dotdot
      else if c = '.' ∧ (t = [] ∨ t.head? = some '/') then cleanLoop rooted fuel t o dotdot
      else if c = '.' ∧ t.head? = some '.' ∧ (t.tail = [] ∨ t.tail.head? = some '/') then
        if o.length > dotdot then cleanLoop rooted fuel t.tail (cleanBacktrack dotdot o) dotdot
        else if rooted = false then
          let o1 := if o.length > 0 then '/' :: o else o
          let o2 := '.' :: '.' :: o1
          cleanLoop rooted fuel t.tail o2 o2.length
        else cleanLoop rooted fuel t.tail o dotdot
      else
        let o1 :=
          if (rooted = true ∧ o.length ≠ 1) ∨ (rooted = false ∧ o.length ≠ 0) then '/' :: o else o
        let elt := (c :: t).takeWhile (fun x => x ≠ '/')
        cleanLoop rooted fuel ((c :: t).dropWhile (fun x => x ≠ '/')) (elt.reverse ++ o1) dotdot

/-- Go `filepath.Clean` (Unix). -/
def filepathClean (p : GoString) : GoString :=
  match p with
  | [] => ['.']
  | c :: t =>
    let o :=
      if c = '/' then cleanLoop true (p.length + 1) t ['/'] 1
      else cleanLoop false (p.length + 1) (c :: t) [] 0
    if o = [] then ['.'] else o.reverse

/-- Go `filepath.Join` of two elements: leading empty elements are dropped,
the rest is joined with a slash and cleaned. -/
def filepathJoin (a b : GoString) : GoString :=
  if a ≠ [] then filepathClean (a ++ '/' :: b)
  else if b ≠ [] then filepathClean b
  else []

/-! ## Digest formatting -/

/-- One hexadecimal digit, lower case (the digits of `fmt` for `%x`). -/
def hexDigit (d : Nat) : Char := "0123456789abcdef".toList.getD d '0'

/-- Go `fmt.Sprintf("%x", b)` for a byte array: two lower-case hexadecimal
digits per byte. -/
def fmtHex (b : Bytes) : GoString :=
  b.flatMap (fun x => [hexDigit (x / 16 % 16), hexDigit (x % 16)])

/-! ## The world outside the program -/

/-- Calls that leave the program, in the order they are made. -/
inductive Event where
  | readDir (dir : GoString)
  | getModInfo (names : List GoString)
  | httpGet (url : GoString)
  | create (path : GoString)
  | chown (path : GoString) (uid gid : Nat)
  | write (path : GoString) (data : Bytes)
  | remove (path : GoString)
  | incoming (url text : GoString)
  | run (name : GoString) (args : List GoString)
  | sleep (seconds : Nat)
  | log (text : GoString)
  deriving DecidableEq

/-- A file of the file system: its bytes and its owner. -/
structure File where
  data : Bytes
  uid : Nat
  gid : Nat
  deriving DecidableEq

/-- The file system, by path. -/
abbrev FileSystem := GoString → Option File

/-- The world: the file system and the history of calls. -/
structure World where
  fs : FileSystem
  trace : List Event

/-- Put `f` at path `p`. -/
def fsSet (fs : FileSystem) (p : GoString) (f : File) : FileSystem :=
  fun q => if q = p then some f else fs q

/-- Unlink path `p`. -/
def fsDel (fs : FileSystem) (p : GoString) : FileSystem :=
  fun q => if q = p then none else fs q

/-- The answers of the outside world.  Every answer may depend on the history
of calls made before it. -/
structure Env where
  /-- `ioutil.ReadDir`: the entry names, or an error. -/
  readDir : List Event → GoString → Except GoError (List GoString)
  /-- The order in which a `range` visits the local-mod map (used only when
  it is a permutation of the map). -/
  rangeOrder : List Event → GoMap LocalMod → GoMap LocalMod
  /-- `http.Get` on the mod portal and the decoding of its JSON body. -/
  getModInfo : List Event → List GoString → Except GoError ModResult
  /-- `http.Get` (outer result), then `ioutil.ReadAll` of the body (inner). -/
  httpGet : List Event → GoString → Except GoError (Except GoError Bytes)
  /-- `sha1.Sum`. -/
  sha1Sum : Bytes → Bytes
  /-- `os.Create`: the error, if any. -/
  create : List Event → GoString → Option GoError
  /-- `File.Chown`: the error, if any. -/
  chown : List Event → GoString → Nat → Nat → Option GoError
  /-- `File.Write`: on failure, the number of bytes written and the error. -/
  write : List Event → GoString → Bytes → Option (Nat × GoError)
  /-- `os.Remove` of an existing file: the error, if any. -/
  remove : List Event → GoString → Option GoError
  /-- `inco.Incoming`: the error, if any. -/
  incoming : List Event → GoString → GoString → Option GoError
  /-- `exec.Command(name, args...).Run()`: the error, if any. -/
  run : List Event → GoString → List GoString → Option GoError
  /-- Owner given to a file the process creates. -/
  uid : Nat
  /-- Group given to a file the process creates. -/
  gid : Nat

/-- The library `github.com/hashicorp/go-version`, as far as `main.go` uses
it.  `equal_self` records that `Compare` starts by returning 0 when the two
versions print the same. -/
structure VersionLib where
  Version : Type
  NewVersion : GoString → Except GoError Version
  Equal : Version → Version → Bool
  String : Version → GoString
  equal_self : ∀ v, Equal v v = true

/-- Record a call in the history. -/
def World.emit (w : World) (e : Event) : World :=
  { w with trace := w.trace ++ [e] }

/-- Go `os.Create`: creates the file or truncates it. -/
def osCreate (E : Env) (w : World) (p : GoString) : World × Option GoError :=
  match E.create w.trace p with
  | some e => (w.emit (.create p), some e)
  | none =>
    let f : File :=
      match w.fs p with
      | some old => { old with data := [] }
      | none => { data := [], uid := E.uid, gid := E.gid }
    ({ fs := fsSet w.fs p f, trace := w.trace ++ [.create p] }, none)

/-- Go `File.Chown` on the file opened at `p`. -/
def fileChown (E : Env) (w : World) (p : GoString) (uid gid : Nat) : World × Option GoError :=
  match E.chown w.trace p uid gid with
  | some e => (w.emit (.chown p uid gid), some e)
  | none =>
    match w.fs p with
    | some f =>
      ({ fs := fsSet w.fs p { f with uid := uid, gid := gid },
         trace := w.trace ++ [.chown p uid gid] }, none)
    | none => (w.emit (.chown p uid gid), none)

/-- Go `File.Write` on the file just created at `p` (offset 0). -/
def fileWrite (E : Env) (w : World) (p : GoString) (b : Bytes) : World × Option GoError :=
  let written : Bytes × Option GoError :=
    match E.write w.trace p b with
    | some (n, e) => (b.take n, some e)
    | none => (b, none)
  match w.fs p with
  | some f =>
    ({ fs := fsSet w.fs p { f with data := written.1 }, trace := w.trace ++ [.write p b] },
      written.2)
  | none => (w.emit (.write p b), written.2)

/-- Go `os.Remove`: fails on a path that does not exist. -/
def osRemove (E : Env) (w : World) (p : GoString) : World × Option GoError :=
  match w.fs p with
  | none => (w.emit (.remove p), some "no such file or directory".toList)
  | some _ =>
    match E.remove w.trace p with
    | some e => (w.emit (.remove p), some e)
    | none => ({ fs := fsDel w.fs p, trace := w.trace ++ [.remove p] }, none)

/-! ## The functions of `main.go` -/

/-- BaseURL is url for factorio mod portal api. -/
def BaseURL : GoString := "https://mods.factorio.com/api/mods".toList

/-- DownloadBaseURL is url for download mods, with its three `%s` filled in. -/
def DownloadBaseURL (downloadURL username token : GoString) : GoString :=
  "https://mods.factorio.com/".toList ++ downloadURL ++ "?username=".toList ++ username ++
    "&token=".toList ++ token

/-- The flags of the command line. -/
structure Config where
  modDir : GoString
  composePath : GoString
  composeFilePath : GoString
  serviceName : GoString
  username : GoString
  token : GoString
  isUpdateServer : Bool
  webhookURL : GoString

/-- The flags left at their defaults. -/
def defaultConfig : Config :=
  { modDir := "./data/mods".toList, composePath := "docker-compose".toList,
    composeFilePath := "docker-compose.yml".toList, serviceName := "factorio".toList,
    username := [], token := [], isUpdateServer := false, webhookURL := [] }

/-- Where a function that can panic ends: normally with a value, or in a
panic, with the world as it was left. -/
inductive Outcome (σ : Type) where
  | done (s : σ)
  | panicked (w : World) (p : PanicValue)

/-- Go `downloadMod`: the result is the returned `error` (`none` for nil). -/
def downloadMod (E : Env) (modDir username token : GoString) (mod : Mod) (w : World) :
    Outcome (World × Option GoError) :=
  match sliceIndex mod.Releases ((mod.Releases.length : Int) - 1) with
  | .error p => .panicked w p
  | .ok release =>
    let u := DownloadBaseURL release.DownloadURL username token
    let w1 := w.emit (.httpGet u)
    match E.httpGet w.trace u with
    | .error e => .done (w1, some e)
    | .ok (.error e) => .done (w1, some e)
    | .ok (.ok b) =>
      -- Validating checksum
      if fmtHex (E.sha1Sum b) ≠ release.Sha1 then .done (w1, some "Invalid file".toList)
      else
        match sliceIndex mod.Releases ((mod.Releases.length : Int) - 1) with
        | .error p => .panicked w1 p
        | .ok release2 =>
          let out := filepathJoin modDir release2.FileName
          match osCreate E w1 out with
          | (w2, some e) => .done (w2, some e)
          | (w2, none) =>
            -- Setting owner to 845
            match fileChown E w2 out 845 845 with
            | (w3, some e) => .done (w3, some e)
            | (w3, none) =>
              -- Copying mod to file
              .done (fileWrite E w3 out b)

/-- Go `deleteOldMod`. -/
def deleteOldMod (E : Env) (modDir fileName : GoString) (w : World) : World × Option GoError :=
  osRemove E w (filepathJoin modDir fileName)

/-- Run `composePath args...` and wait for it. -/
def execRun (E : Env) (w : World) (name : GoString) (args : List GoString) :
    World × Option GoError :=
  (w.emit (.run name args), E.run w.trace name args)

/-- Go `updateServer`: update factorio server to latest version. -/
def updateServer (E : Env) (composePath composeFilePath serviceName : GoString) (w : World) :
    World × Option GoError :=
  match execRun E w composePath ["-f".toList, composeFilePath, "pull".toList, serviceName] with
  | (w1, some e) => (w1, some e)
  | (w1, none) =>
    execRun E w1 composePath ["-f".toList, composeFilePath, "up".toList, "-d".toList, serviceName]

/-- Post a message to the webhook. -/
def incoming (E : Env) (w : World) (url text : GoString) : World × Option GoError :=
  (w.emit (.incoming url text), E.incoming w.trace url text)

/-- The state of the check-update loop: the world and `isModUpdated`. -/
structure RunState where
  world : World
  isModUpdated : Bool

/-- Building `modInfo` from the registry response (`main`, lines 107-110). -/
def buildModInfo (results : List Mod) : GoMap Mod :=
  results.foldl (fun m r => mapSet m r.Name r) []

/-- The text of `"New version of %s available %s -> %s\n"`. -/
def newVersionText (title localVersion newestVersion : GoString) : GoString :=
  "New version of ".toList ++ title ++ " available ".toList ++ localVersion ++
    " -> ".toList ++ newestVersion

/-- The text of `"Downloading mod %s (%s)\n"`. -/
def downloadingText (title newestVersion : GoString) : GoString :=
  "Downloading mod ".toList ++ title ++ " (".toList ++ newestVersion ++ ")".toList

/-- The text of `"Updated %s (%s -> %s)"`. -/
def updatedText (title localVersion newestVersion : GoString) : GoString :=
  "Updated ".toList ++ title ++ " (".toList ++ localVersion ++ " -> ".toList ++
    newestVersion ++ ")".toList

/-- Body of the check-update loop for the local mod `v` (`main`, lines
115-145). -/
def checkUpdate (L : VersionLib) (E : Env) (cfg : Config) (modInfo : GoMap Mod)
    (v : LocalMod) (st : RunState) : Outcome RunState :=
  match L.NewVersion v.Version with
  | .error e => .panicked st.world (.err (some e))
  | .ok localVersion =>
    match mapGet modInfo v.Name with
    | none => .panicked st.world (.err none)
    | some newestMod =>
      match sliceIndex newestMod.Releases ((newestMod.Releases.length : Int) - 1) with
      | .error p => .panicked st.world p
      | .ok release =>
        match L.NewVersion release.Version with
        | .error e => .panicked st.world (.err (some e))
        | .ok newestVersion =>
          if L.Equal localVersion newestVersion = false then
            -- New version detected
            let w1 := st.world.emit (.log (newVersionText newestMod.Title
              (L.String localVersion) (L.String newestVersion)))
            -- Download mod
            let w2 := w1.emit (.log (downloadingText newestMod.Title (L.String newestVersion)))
            match downloadMod E cfg.modDir cfg.username cfg.token newestMod w2 with
            | .panicked w p => .panicked w p
            | .done (w3, some e) => .panicked w3 (.err (some e))
            | .done (w3, none) =>
              -- Delete mod
              match deleteOldMod E cfg.modDir v.FileName w3 with
              | (w4, some e) => .panicked w4 (.err (some e))
              | (w4, none) =>
                match incoming E w4 cfg.webhookURL (updatedText newestMod.Title
                    (L.String localVersion) (L.String newestVersion)) with
                | (w5, some e) => .panicked w5 (.err (some e))
                | (w5, none) => .done { world := w5, isModUpdated := true }
          else .done st

/-- The decision taken by the body of the check-update loop for the local mod
`v` (`main`, lines 115-127): does it find a new version?  (`false` as well when
the body panics before the comparison.) -/
def needsUpdate (L : VersionLib) (modInfo : GoMap Mod) (v : LocalMod) : Bool :=
  match L.NewVersion v.Version with
  | .error _ => false
  | .ok localVersion =>
    match mapGet modInfo v.Name with
    | none => false
    | some newestMod =>
      match sliceIndex newestMod.Releases ((newestMod.Releases.length : Int) - 1) with
      | .error _ => false
      | .ok release =>
        match L.NewVersion release.Version with
        | .error _ => false
        | .ok newestVersion => !(L.Equal localVersion newestVersion)

/-- The check-update loop over the local mods in the order visited. -/
def checkUpdates (L : VersionLib) (E : Env) (cfg : Config) (modInfo : GoMap Mod) :
    List LocalMod → RunState → Outcome RunState
  | [], st => .done st
  | v :: rest, st =>
    match checkUpdate L E cfg modInfo v st with
    | .panicked w p => .panicked w p
    | .done st1 => checkUpdates L E cfg modInfo rest st1

/-- If mod was updated, server must be restarted (`main`, lines 149-156). -/
def restartIfUpdated (E : Env) (cfg : Config) (st : RunState) : Outcome World :=
  if st.isModUpdated = true then
    match execRun E st.world cfg.composePath
        ["-f".toList, cfg.composeFilePath, "restart".toList, cfg.serviceName] with
    | (w1, some e) => .panicked w1 (.err (some e))
    | (w1, none) =>
      -- Wait for restart
      .done ((w1.emit (.log "Wait for restart.....".toList)).emit (.sleep 5))
  else .done st.world

/-- Update server (`main`, lines 159-168). -/
def updateServerIfAsked (E : Env) (cfg : Config) (w : World) : Outcome World :=
  if cfg.isUpdateServer = true then
    match updateServer E cfg.composePath cfg.composeFilePath cfg.serviceName w with
    | (w1, some e) => .panicked w1 (.err (some e))
    | (w1, none) =>
      match incoming E w1 cfg.webhookURL "Server updated".toList with
      | (w2, some e) => .panicked w2 (.err (some e))
      | (w2, none) => .done w2
  else .done w

/-- The order of one `range` over the local-mod map. -/
def rangeLocalMods (E : Env) (w : World) (m : GoMap LocalMod) : GoMap LocalMod :=
  if (E.rangeOrder w.trace m).Perm m then E.rangeOrder w.trace m else m

/-- Go `getModInfo`: getting mod info from server. -/
def getModInfo (E : Env) (w : World) (localMods : GoMap LocalMod) :
    World × Except GoError ModResult :=
  let names := (rangeLocalMods E w localMods).map Prod.fst
  let w1 := w.emit (.log ("Getting info from ".toList ++ BaseURL))
  (w1.emit (.getModInfo names), E.getModInfo w1.trace names)

/-- The part of `main` before the check-update loop (lines 81-110): the world,
the local mods and the mod info it ends with. -/
def prepare (E : Env) (cfg : Config) (fs : FileSystem) :
    Outcome (World × GoMap LocalMod × GoMap Mod) :=
  let w0 : World := { fs := fs, trace := [] }
  let w1 := w0.emit (.readDir cfg.modDir)
  match E.readDir w0.trace cfg.modDir with
  | .error e => .panicked w1 (.err (some e))
  | .ok files =>
    match scanLocalMods files with
    | .error p => .panicked w1 p
    | .ok localMods =>
      match getModInfo E w1 localMods with
      | (w2, .error e) => .panicked w2 (.err (some e))
      | (w2, .ok res) => .done (w2, localMods, buildModInfo res.Results)

/-- Go `main`, from the parsed flags and the file system it starts on. -/
def main (L : VersionLib) (E : Env) (cfg : Config) (fs : FileSystem) : Outcome World :=
  match prepare E cfg fs with
  | .panicked w p => .panicked w p
  | .done (w, localMods, modInfo) =>
    match checkUpdates L E cfg modInfo ((rangeLocalMods E w localMods).map Prod.snd)
        { world := w, isModUpdated := false } with
    | .panicked w1 p => .panicked w1 p
    | .done st =>
      match restartIfUpdated E cfg st with
      | .panicked w2 p => .panicked w2 p
      | .done w2 => updateServerIfAsked E cfg w2

/-- The world an outcome ends in, `proj` reading it off a normal end. -/
def Outcome.worldWith {σ : Type} (proj : σ → World) : Outcome σ → World
  | .done s => proj s
  | .panicked w _ => w

/-- The panic an outcome ends in, if any. -/
def Outcome.panicValue {σ : Type} : Outcome σ → Option PanicValue
  | .done _ => none
  | .panicked _ p => some p

/-- The world `main` ends in. -/
def Outcome.finalWorld (o : Outcome World) : World := o.worldWith id

/-! ## Observations on a history -/

/-- The restart command of `main`. -/
def restartCommand (cfg : Config) : Event :=
  .run cfg.composePath ["-f".toList, cfg.composeFilePath, "restart".toList, cfg.serviceName]

/-- The `pull` command of `updateServer`. -/
def pullCommand (composePath composeFilePath serviceName : GoString) : Event :=
  .run composePath ["-f".toList, composeFilePath, "pull".toList, serviceName]

/-- The `up -d` command of `updateServer`. -/
def upCommand (composePath composeFilePath serviceName : GoString) : Event :=
  .run composePath ["-f".toList, composeFilePath, "up".toList, "-d".toList, serviceName]

/-- Is the event a removal of a file? -/
def Event.isRemove : Event → Bool
  | .remove _ => true
  | _ => false

/-- Is the event the start of a sub-process? -/
def Event.isRun : Event → Bool
  | .run _ _ => true
  | _ => false

/-- Is the event a download, a change to the file system or a notification? -/
def Event.isEffect : Event → Bool
  | .httpGet _ => true
  | .create _ => true
  | .chown _ _ _ => true
  | .write _ _ => true
  | .remove _ => true
  | .incoming _ _ => true
  | _ => false

/-- Number of mods installed in a history: the calls of `os.Remove`, which
`deleteOldMod` makes once, as the last step of each install. -/
def installCount (t : List Event) : Nat := t.countP Event.isRemove

/-! ## `go-version` on plain dotted numbers

A model of `version.NewVersion`, `Equal` and `String` for version strings of
the shape `v?DIGITS(.DIGITS)*`, the shape of the versions of Factorio mods.
Pre-release and metadata suffixes are outside this model, which reports them
as malformed. -/

/-- A parsed version: its numeric segments. -/
structure NumVersion where
  segments : List Nat
  deriving DecidableEq

/-- Is the string a non-empty run of decimal digits? -/
def isDigits (s : GoString) : Bool :=
  !s.isEmpty && s.all Char.isDigit

/-- The number a run of decimal digits writes. -/
def digitsValue (s : GoString) : Nat :=
  s.foldl (fun n c => 10 * n + (c.toNat - 48)) 0

/-- Go `version.NewVersion`: the string is malformed unless it is dotted runs
of digits after an optional `v`; every run must fit an `int64`
(`strconv.ParseInt`); the segments are padded with zeros to three. -/
def newNumVersion (s : GoString) : Except GoError NumVersion :=
  let body := match s with
    | 'v' :: t => t
    | _ => s
  let segmentsStr := stringsSplit body ".".toList
  if segmentsStr.all isDigits = true then
    match segmentsStr.find? (fun str => 2 ^ 63 ≤ digitsValue str) with
    | some str =>
      .error ("Error parsing version: strconv.ParseInt: parsing ".toList ++ '"' :: str ++
        '"' :: ": value out of range".toList)
    | none =>
      let segments := segmentsStr.map digitsValue
      .ok { segments := segments ++ List.replicate (3 - segments.length) 0 }
  else .error ("Malformed version: ".toList ++ s)

/-- Go `Version.String`: the segments in decimal, joined by dots. -/
def numVersionString (v : NumVersion) : GoString :=
  List.intercalate ".".toList (v.segments.map (fun n => Nat.toDigits 10 n))

/-- The segment loop of `Version.Compare`: a shorter list compares as if
continued by zeros. -/
def compareSegments : List Nat → List Nat → Int
  | [], ys => if ys.all (fun y => y = 0) = true then 0 else -1
  | x :: xs, [] => if (x :: xs).all (fun y => y = 0) = true then 0 else 1
  | x :: xs, y :: ys => if x = y then compareSegments xs ys else if x < y then -1 else 1

/-- Go `Version.Compare`, then `Equal`. -/
def numVersionEqual (v o : NumVersion) : Bool :=
  let cmp : Int :=
    if numVersionString v = numVersionString o then 0
    else compareSegments v.segments o.segments
  cmp = 0

/-- The library on plain dotted numbers. -/
@[reducible] def goVersion : VersionLib :=
  { Version := NumVersion
    NewVersion := newNumVersion
    Equal := numVersionEqual
    String := numVersionString
    equal_self := by intro v; simp [numVersionEqual] }

/-! ## A sample environment -/

/-- An outside world in which every call succeeds: the portal answers with
`res`, every download yields `payload`, whose digest is `digest`. -/
def calmEnv (files : List GoString) (res : ModResult) (payload digest : Bytes) : Env :=
  { readDir := fun _ _ => .ok files
    rangeOrder := fun _ m => m
    getModInfo := fun _ _ => .ok res
    httpGet := fun _ _ => .ok (.ok payload)
    sha1Sum := fun _ => digest
    create := fun _ _ => none
    chown := fun _ _ _ _ => none
    write := fun _ _ _ => none
    remove := fun _ _ => none
    incoming := fun _ _ _ => none
    run := fun _ _ _ => none
    uid := 0
    gid := 0 }

/-- The release `1.0.0` of the sample mod. -/
def olderRelease : Release :=
  { DownloadURL := "download/alien-biomes/1.0.0".toList
    FileName := "alien-biomes_1.0.0.zip".toList
    Version := "1.0.0".toList
    Sha1 := "00ff10".toList }

/-- The release `1.0.1` of the sample mod. -/
def sampleRelease : Release :=
  { DownloadURL := "download/alien-biomes/1.0.1".toList
    FileName := "alien-biomes_1.0.1.zip".toList
    Version := "1.0.1".toList
    Sha1 := "abc123".toList }

/-- The sample mod as the portal describes it. -/
def sampleMod : Mod :=
  { Title := "Alien Biomes".toList
    Name := "alien-biomes".toList
    Releases := [olderRelease, sampleRelease] }

/-- A release `1.0.1` that the portal publishes under the file name of `1.0.0`. -/
def clashRelease : Release :=
  { sampleRelease with FileName := "alien-biomes_1.0.0.zip".toList }

/-- The sample mod with the clashing release last. -/
def clashMod : Mod :=
  { sampleMod with Releases := [olderRelease, clashRelease] }

/-- The sample mod when `1.0.0` is its last release. -/
def currentMod : Mod :=
  { sampleMod with Releases := [olderRelease] }

/-- The sample mod with no release. -/
def emptyMod : Mod :=
  { sampleMod with Releases := [] }

/-- The sample mod as found in the mod directory. -/
def sampleLocal : LocalMod :=
  { Name := "alien-biomes".toList
    FileName := "alien-biomes_1.0.0.zip".toList
    Version := "1.0.0".toList }

/-- The local mod of the file `alien-biomes_1.0.zip`. -/
def shortLocal : LocalMod :=
  { Name := "alien-biomes".toList
    FileName := "alien-biomes_1.0.zip".toList
    Version := "1.0".toList }

/-- A mod directory holding `alien-biomes_1.0.0.zip`. -/
def sampleFs : FileSystem :=
  fun p => if p = "data/mods/alien-biomes_1.0.0.zip".toList
    then some { data := [80, 75, 3, 4], uid := 845, gid := 845 } else none

/-- The sample world before any call. -/
def sampleWorld : World := { fs := sampleFs, trace := [] }

/-- The sample outside world: downloads yield the bytes 1, 2, 3 with digest
`abc123`. -/
def sampleEnv : Env :=
  calmEnv ["alien-biomes_1.0.0.zip".toList, "mod-list.json".toList] { Results := [sampleMod] }
    [1, 2, 3] [171, 193, 35]

/-- The sample outside world with downloads whose digest is `000000`. -/
def corruptEnv : Env :=
  calmEnv ["alien-biomes_1.0.0.zip".toList, "mod-list.json".toList] { Results := [sampleMod] }
    [1, 2, 3] [0, 0, 0]

/-- The sample outside world in which the `pull` command fails. -/
def pullFailsEnv : Env :=
  { sampleEnv with
    run := fun _ _ args =>
      if args.get? 2 = some "pull".toList then some "exit status 1".toList else none }

/-- The state in which a loop over a list of local mods ends (the state it
panicked in counts as not updated). -/
def Outcome.finalState : Outcome RunState → RunState
  | .done st => st
  | .panicked w _ => { world := w, isModUpdated := false }

/-! # Theorems -/



/-! ## Lemmas on maps -/

theorem mapGet_mapSet {α : Type} (m : GoMap α) (k k' : GoString) (a : α) :
    mapGet (mapSet m k a) k' = if k = k' then some a else mapGet m k' := by
  induction m with
  | nil => simp [mapSet, mapGet]
  | cons x m ih =>
    obtain ⟨k0, a0⟩ := x
    simp only [mapSet, mapGet]
    by_cases h0 : k0 = k
    · rw [if_pos h0]
      subst h0
      simp only [mapGet]
      by_cases h1 : k0 = k'
      · rw [if_pos h1, if_pos h1]
      · rw [if_neg h1, if_neg h1, if_neg h1]
    · rw [if_neg h0]
      simp only [mapGet]
      rw [ih]
      by_cases h2 : k0 = k'
      · subst h2
        rw [if_pos rfl, if_pos rfl, if_neg (fun h => h0 h.symm)]
      · rw [if_neg h2, if_neg h2]

theorem mapGet_mapSet_self {α : Type} (m : GoMap α) (k : GoString) (a : α) :
    mapGet (mapSet m k a) k = some a := by
  rw [mapGet_mapSet, if_pos rfl]

theorem mapSet_keys {α : Type} (m : GoMap α) (k : GoString) (a : α) :
    (mapSet m k a).map Prod.fst =
      if k ∈ m.map Prod.fst then m.map Prod.fst else m.map Prod.fst ++ [k] := by
  induction m with
  | nil => rfl
  | cons x m ih =>
    obtain ⟨k0, a0⟩ := x
    simp only [mapSet]
    by_cases h0 : k0 = k
    · rw [if_pos h0]
      subst h0
      rw [if_pos (by simp only [List.map_cons]; exact List.mem_cons_self _ _)]
      rfl
    · rw [if_neg h0]
      have h1 : ¬ k = k0 := fun h => h0 h.symm
      by_cases h2 : k ∈ m.map Prod.fst
      · rw [if_pos h2] at ih
        simp only [List.map_cons, ih]
        rw [if_pos (List.mem_cons_of_mem _ h2)]
      · rw [if_neg h2] at ih
        simp only [List.map_cons, ih]
        rw [if_neg (by simp only [List.mem_cons, not_or]; exact ⟨h1, h2⟩)]
        rfl

theorem mapSet_keys_nodup {α : Type} (m : GoMap α) (k : GoString) (a : α)
    (h : (m.map Prod.fst).Nodup) : ((mapSet m k a).map Prod.fst).Nodup := by
  rw [mapSet_keys]
  by_cases h2 : k ∈ m.map Prod.fst
  · rw [if_pos h2]; exact h
  · rw [if_neg h2]
    rw [List.nodup_append]
    refine ⟨h, List.nodup_singleton k, ?_⟩
    intro x hx hx2
    rw [List.mem_singleton] at hx2
    exact h2 (hx2 ▸ hx)

theorem mapGet_eq_none_iff {α : Type} (m : GoMap α) (k : GoString) :
    mapGet m k = none ↔ k ∉ m.map Prod.fst := by
  induction m with
  | nil => simp [mapGet]
  | cons x m ih =>
    obtain ⟨k0, a0⟩ := x
    simp only [mapGet]
    by_cases h0 : k0 = k
    · rw [if_pos h0]
      subst h0
      simp only [List.map_cons, List.mem_cons, true_or, not_true_eq_false, reduceCtorEq]
    · have h1 : ¬ k = k0 := fun h => h0 h.symm
      rw [if_neg h0, ih]
      simp only [List.map_cons, List.mem_cons, not_or]
      exact ⟨fun h => ⟨h1, h⟩, fun h => h.2⟩

/-! ## Lemmas on strings -/

theorem pathExt_append_zip (s : GoString) : pathExt (s ++ ".zip".toList) = ".zip".toList := by
  show pathExt (s ++ ['.', 'z', 'i', 'p']) = ['.', 'z', 'i', 'p']
  simp [pathExt, extLoop]

theorem replaceLoop_skip (old new a rest : GoString)
    (h : ∀ p t, a = p ++ t → t ≠ [] → old.isPrefixOf (t ++ rest) = false) :
    replaceLoop old new 0 (a ++ rest) = a ++ replaceLoop old new 0 rest := by
  induction a with
  | nil => rfl
  | cons c a ih =>
    have h0 : old.isPrefixOf (c :: (a ++ rest)) = false := h [] (c :: a) rfl (by simp)
    have ih1 := ih (fun p t hp ht => h (c :: p) t (by rw [hp]; rfl) ht)
    simp [replaceLoop, h0, ih1]

theorem no_match_before_underscore (old a r : GoString) (hold : '_' ∉ old)
    (ha : ¬ old <:+: a) (p t : GoString) (hp : a = p ++ t) :
    old.isPrefixOf (t ++ '_' :: r) = false := by
  by_contra hc
  rw [Bool.not_eq_false, List.isPrefixOf_iff_prefix] at hc
  rcases List.prefix_or_prefix_of_prefix hc (List.prefix_append t ('_' :: r)) with h1 | h1
  · obtain ⟨x, hx⟩ := h1
    exact ha ⟨p, x, by rw [hp, ← hx]; simp⟩
  · obtain ⟨x, hx⟩ := h1
    rw [← hx, List.prefix_append_right_inj] at hc
    cases x with
    | nil => exact ha ⟨p, [], by rw [hp, ← hx]; simp⟩
    | cons y x =>
      have hy : y = '_' := by
        obtain ⟨z, hz⟩ := hc
        simp at hz
        exact hz.1
      exact hold (by rw [← hx, hy]; simp)

theorem no_match_before_zip (a : GoString) (ha : ¬ ['.', 'z', 'i', 'p'] <:+: a)
    (p t : GoString) (hp : a = p ++ t) (ht : t ≠ []) :
    List.isPrefixOf ['.', 'z', 'i', 'p'] (t ++ ['.', 'z', 'i', 'p']) = false := by
  rcases t with _ | ⟨c1, _ | ⟨c2, _ | ⟨c3, _ | ⟨c4, t⟩⟩⟩⟩
  · exact absurd rfl ht
  · simp [List.isPrefixOf]
  · simp [List.isPrefixOf]
  · simp [List.isPrefixOf]
  · by_contra hc
    rw [Bool.not_eq_false] at hc
    simp [List.isPrefixOf] at hc
    obtain ⟨h1, h2, h3, h4⟩ := hc
    exact ha ⟨p, t, by rw [hp, h1, h2, h3, h4]; simp⟩

theorem splitLoop_skip (a rest cur : GoString) (h : '_' ∉ a) :
    splitLoop ['_'] 0 cur (a ++ rest) = splitLoop ['_'] 0 (a.reverse ++ cur) rest := by
  induction a generalizing cur with
  | nil => rfl
  | cons c a ih =>
    have hc : ¬ '_' = c := fun hc => h (by rw [hc]; simp)
    have ha : '_' ∉ a := fun ha => h (List.mem_cons_of_mem _ ha)
    simp [splitLoop, List.isPrefixOf, hc, ih _ ha]

theorem replaceAll_name_version (n v : GoString)
    (hnz : ¬ ".zip".toList <:+: n) (hvz : ¬ ".zip".toList <:+: v) :
    stringsReplaceAll (n ++ "_".toList ++ v ++ ".zip".toList) ".zip".toList [] =
      n ++ '_' :: v := by
  show stringsReplaceAll (n ++ ['_'] ++ v ++ ['.', 'z', 'i', 'p']) ['.', 'z', 'i', 'p'] [] = _
  have e1 : n ++ ['_'] ++ v ++ ['.', 'z', 'i', 'p'] = n ++ ('_' :: (v ++ ['.', 'z', 'i', 'p'])) := by
    simp
  have s1 := replaceLoop_skip ['.', 'z', 'i', 'p'] [] n ('_' :: (v ++ ['.', 'z', 'i', 'p']))
    (fun p t hp _ => no_match_before_underscore _ n _ (by decide) hnz p t hp)
  have s2 := replaceLoop_skip ['.', 'z', 'i', 'p'] [] v ['.', 'z', 'i', 'p']
    (fun p t hp ht => no_match_before_zip v hvz p t hp ht)
  have s3 : replaceLoop ['.', 'z', 'i', 'p'] [] 0 ('_' :: (v ++ ['.', 'z', 'i', 'p'])) =
      '_' :: replaceLoop ['.', 'z', 'i', 'p'] [] 0 (v ++ ['.', 'z', 'i', 'p']) := by
    simp [replaceLoop, List.isPrefixOf]
  have s4 : replaceLoop ['.', 'z', 'i', 'p'] [] 0 ['.', 'z', 'i', 'p'] = [] := by
    simp [replaceLoop, List.isPrefixOf]
  rw [e1]
  simp only [stringsReplaceAll]
  rw [if_neg (by decide), if_neg (by decide), s1, s3, s2, s4]
  simp

theorem split_name_version (n v : GoString) (hn : '_' ∉ n) (hv : '_' ∉ v) :
    stringsSplit (n ++ '_' :: v) "_".toList = [n, v] := by
  show stringsSplit (n ++ '_' :: v) ['_'] = [n, v]
  have s1 := splitLoop_skip n ('_' :: v) [] hn
  have s2 := splitLoop_skip v [] [] hv
  simp only [List.append_nil] at s1 s2
  simp only [stringsSplit]
  rw [if_neg (by decide), s1]
  simp [splitLoop, List.isPrefixOf, s2]

/-! ## The scanner -/

/-- Claim C1, as amended: for every mod name `n` and version string `v` that
contain neither an underscore nor the text `.zip`, scanning the directory entry
`n ++ "_" ++ v ++ ".zip"` stores, under key `n` of the local-mod mapping, the
record with `Name = n`, `Version = v` and `FileName` the full entry name;
scanning that entry alone gives the mapping holding exactly that record. -/
theorem scanEntry_round_trip (localMods : GoMap LocalMod) (n v : GoString)
    (hn : '_' ∉ n) (hv : '_' ∉ v)
    (hnz : ¬ ".zip".toList <:+: n) (hvz : ¬ ".zip".toList <:+: v) :
    scanEntry localMods (n ++ "_".toList ++ v ++ ".zip".toList) =
        .ok (mapSet localMods n
          { Name := n, FileName := n ++ "_".toList ++ v ++ ".zip".toList, Version := v }) ∧
      mapGet (mapSet localMods n
          { Name := n, FileName := n ++ "_".toList ++ v ++ ".zip".toList, Version := v }) n =
        some { Name := n, FileName := n ++ "_".toList ++ v ++ ".zip".toList, Version := v } ∧
      scanLocalMods [n ++ "_".toList ++ v ++ ".zip".toList] =
        .ok [(n, { Name := n, FileName := n ++ "_".toList ++ v ++ ".zip".toList, Version := v })] := by
  have key : ∀ m : GoMap LocalMod, scanEntry m (n ++ "_".toList ++ v ++ ".zip".toList) =
      .ok (mapSet m n
        { Name := n, FileName := n ++ "_".toList ++ v ++ ".zip".toList, Version := v }) := by
    intro m
    simp only [scanEntry]
    rw [pathExt_append_zip, if_pos rfl, replaceAll_name_version n v hnz hvz,
      split_name_version n v hn hv]
    rfl
  refine ⟨key _, mapGet_mapSet_self _ _ _, ?_⟩
  · simp only [scanLocalMods, scanLoop, key]
    rfl

theorem scanEntry_cases (e : GoString) :
    (∃ p, ∀ m, scanEntry m e = .error p) ∨ (∀ m, scanEntry m e = .ok m) ∨
    (∃ k r, r.Name = k ∧ r.FileName = e ∧ pathExt e = ".zip".toList ∧
      ∀ m, scanEntry m e = .ok (mapSet m k r)) := by
  by_cases h : pathExt e = ".zip".toList
  · simp only [scanEntry, h, if_true]
    cases h0 : sliceIndex (stringsSplit (stringsReplaceAll e ".zip".toList []) "_".toList) 0 with
    | error p => exact Or.inl ⟨p, fun _ => rfl⟩
    | ok k =>
      cases h1 : sliceIndex (stringsSplit (stringsReplaceAll e ".zip".toList []) "_".toList) 1 with
      | error p => exact Or.inl ⟨p, fun _ => rfl⟩
      | ok v => exact Or.inr (Or.inr ⟨k, ⟨k, e, v⟩, rfl, rfl, trivial, fun _ => rfl⟩)
  · exact Or.inr (Or.inl (fun m => by simp only [scanEntry, if_neg h]))

theorem scanEntry_of_yield (e k : GoString) (r : LocalMod) (h : scanEntry [] e = .ok [(k, r)]) :
    r.Name = k ∧ r.FileName = e ∧ pathExt e = ".zip".toList ∧
      ∀ m, scanEntry m e = .ok (mapSet m k r) := by
  rcases scanEntry_cases e with ⟨p, hp⟩ | hp | ⟨k0, r0, h1, h2, h3, hp⟩
  · rw [hp] at h; cases h
  · rw [hp] at h; cases h
  · rw [hp] at h
    simp only [mapSet, Except.ok.injEq, List.cons.injEq, Prod.mk.injEq, and_true] at h
    obtain ⟨hk, hr⟩ := h
    subst hk; subst hr
    exact ⟨h1, h2, h3, hp⟩

theorem scanLoop_concat (m0 : GoMap LocalMod) (init : List GoString) (e : GoString) :
    scanLoop m0 (init ++ [e]) =
      match scanLoop m0 init with
      | .error p => .error p
      | .ok m => scanEntry m e := by
  induction init generalizing m0 with
  | nil =>
    simp only [List.nil_append, scanLoop]
    cases scanEntry m0 e <;> rfl
  | cons x init ih =>
    simp only [List.cons_append, scanLoop]
    cases scanEntry m0 x with
    | error p => rfl
    | ok m => exact ih m

theorem concat_eq_append_cons {α : Type} (init pre post : List α) (e0 e : α)
    (h : init ++ [e0] = pre ++ e :: post) :
    (post = [] ∧ pre = init ∧ e = e0) ∨ ∃ post1, post = post1 ++ [e0] ∧ init = pre ++ e :: post1 := by
  rcases List.eq_nil_or_concat post with hp | ⟨post1, x, hp⟩
  · subst hp
    have h2 : init ++ [e0] = pre ++ [e] := h
    have h3 := List.append_inj' h2 rfl
    simp only [List.cons.injEq, and_true] at h3
    exact Or.inl ⟨rfl, h3.1.symm, h3.2.symm⟩
  · subst hp
    have h2 : init ++ [e0] = (pre ++ e :: post1) ++ [x] := by
      rw [h]; simp
    have h3 := List.append_inj' h2 rfl
    simp only [List.cons.injEq, and_true] at h3
    exact Or.inr ⟨post1, by rw [h3.2, List.concat_eq_append], h3.1⟩

theorem scanLocalMods_inv (files : List GoString) (m : GoMap LocalMod)
    (h : scanLocalMods files = .ok m) :
    (m.map Prod.fst).Nodup ∧
    ∀ k r, mapGet m k = some r ↔
      ∃ pre e post, files = pre ++ e :: post ∧ scanEntry [] e = .ok [(k, r)] ∧
        ∀ e1 ∈ post, ∀ r1, scanEntry [] e1 ≠ .ok [(k, r1)] := by
  induction files using List.reverseRecOn generalizing m with
  | nil =>
    simp only [scanLocalMods, scanLoop, Except.ok.injEq] at h
    subst h
    refine ⟨List.nodup_nil, fun k r => ?_⟩
    simp [mapGet]
  | append_singleton init e0 ih =>
    simp only [scanLocalMods] at h ih
    rw [scanLoop_concat] at h
    cases h0 : scanLoop [] init with
    | error p => rw [h0] at h; cases h
    | ok m1 =>
      rw [h0] at h
      simp only at h
      obtain ⟨hnd, hget⟩ := ih m1 h0
      rcases scanEntry_cases e0 with ⟨p, hp⟩ | hp | ⟨k0, r0, _, _, _, hp⟩
      · rw [hp] at h; cases h
      · rw [hp] at h
        simp only [Except.ok.injEq] at h
        subst h
        refine ⟨hnd, fun k r => ?_⟩
        rw [hget]
        constructor
        · rintro ⟨pre, e, post, h1, h2, h3⟩
          refine ⟨pre, e, post ++ [e0], by rw [h1]; simp, h2, ?_⟩
          intro e1 he1 r1
          rw [List.mem_append, List.mem_singleton] at he1
          rcases he1 with he1 | he1
          · exact h3 e1 he1 r1
          · rw [he1, hp]; simp
        · rintro ⟨pre, e, post, h1, h2, h3⟩
          rcases concat_eq_append_cons init pre post e0 e h1 with ⟨_, _, h5⟩ | ⟨post1, h4, h5⟩
          · rw [h5, hp] at h2; simp at h2
          · refine ⟨pre, e, post1, h5, h2, fun e1 he1 r1 => h3 e1 ?_ r1⟩
            rw [h4]; exact List.mem_append_left _ he1
      · rw [hp] at h
        simp only [Except.ok.injEq] at h
        subst h
        have hy : scanEntry [] e0 = .ok [(k0, r0)] := by rw [hp]; rfl
        refine ⟨mapSet_keys_nodup _ _ _ hnd, fun k r => ?_⟩
        rw [mapGet_mapSet]
        by_cases hk : k0 = k
        · subst hk
          rw [if_pos rfl]
          constructor
          · intro hr
            simp only [Option.some.injEq] at hr
            subst hr
            exact ⟨init, e0, [], rfl, hy, by simp⟩
          · rintro ⟨pre, e, post, h1, h2, h3⟩
            rcases concat_eq_append_cons init pre post e0 e h1 with ⟨_, _, h5⟩ | ⟨post1, h4, _⟩
            · rw [h5, hy] at h2
              simp only [Except.ok.injEq, List.cons.injEq, Prod.mk.injEq, true_and, and_true] at h2
              rw [h2]
            · exact absurd hy (h3 e0 (by rw [h4]; simp) r0)
        · rw [if_neg hk, hget]
          constructor
          · rintro ⟨pre, e, post, h1, h2, h3⟩
            refine ⟨pre, e, post ++ [e0], by rw [h1]; simp, h2, ?_⟩
            intro e1 he1 r1
            rw [List.mem_append, List.mem_singleton] at he1
            rcases he1 with he1 | he1
            · exact h3 e1 he1 r1
            · rw [he1, hy]
              simp only [ne_eq, Except.ok.injEq, List.cons.injEq, Prod.mk.injEq, and_true, not_and]
              intro hk2; exact absurd hk2 hk
          · rintro ⟨pre, e, post, h1, h2, h3⟩
            rcases concat_eq_append_cons init pre post e0 e h1 with ⟨_, _, h5⟩ | ⟨post1, h4, h5⟩
            · rw [h5, hy] at h2
              simp only [Except.ok.injEq, List.cons.injEq, Prod.mk.injEq, and_true] at h2
              exact absurd h2.1 hk
            · refine ⟨pre, e, post1, h5, h2, fun e1 he1 r1 => h3 e1 ?_ r1⟩
              rw [h4]; exact List.mem_append_left _ he1

theorem scanLoop_ok_iff (files : List GoString) (m0 : GoMap LocalMod) :
    (∃ m, scanLoop m0 files = .ok m) ↔ ∀ e ∈ files, ∃ m, scanEntry [] e = .ok m := by
  induction files generalizing m0 with
  | nil => simp [scanLoop]
  | cons x files ih =>
    simp only [scanLoop, List.mem_cons, forall_eq_or_imp]
    rcases scanEntry_cases x with ⟨p, hp⟩ | hp | ⟨k0, r0, _, _, _, hp⟩
    · simp [hp]
    · simp only [hp]
      rw [ih]
      simp
    · simp only [hp]
      rw [ih]
      simp

/-- Claim C9: for every list of directory entries, a mapping is built exactly
when no entry panics on its own, and the mapping built holds one record per
key; it holds the record `r` under the name `k` exactly when some entry of the
list has extension `.zip`, yields the name `k` and the record `r` (whose
`FileName` is the entry), and no later entry yields the name `k`. -/
theorem scan_last_wins (files : List GoString) :
    ((∃ m, scanLocalMods files = .ok m) ↔ ∀ e ∈ files, ∃ m, scanEntry [] e = .ok m) ∧
    ∀ m, scanLocalMods files = .ok m →
      (m.map Prod.fst).Nodup ∧
      ∀ k r, mapGet m k = some r ↔
        ∃ pre e post, files = pre ++ e :: post ∧ scanEntry [] e = .ok [(k, r)] ∧
          r.Name = k ∧ r.FileName = e ∧ pathExt e = ".zip".toList ∧
          ∀ e1 ∈ post, ∀ r1, scanEntry [] e1 ≠ .ok [(k, r1)] := by
  refine ⟨scanLoop_ok_iff files [], fun m hm => ?_⟩
  obtain ⟨hnd, hget⟩ := scanLocalMods_inv files m hm
  refine ⟨hnd, fun k r => ?_⟩
  rw [hget]
  constructor
  · rintro ⟨pre, e, post, h1, h2, h3⟩
    obtain ⟨h4, h5, h6, _⟩ := scanEntry_of_yield e k r h2
    exact ⟨pre, e, post, h1, h2, h4, h5, h6, h3⟩
  · rintro ⟨pre, e, post, h1, h2, _, _, _, h3⟩
    exact ⟨pre, e, post, h1, h2, h3⟩

/-! ## Lemmas on slices -/

theorem sliceIndex_last {α : Type} (init : List α) (x : α) :
    sliceIndex (init ++ [x]) (((init ++ [x]).length : Int) - 1) = .ok x := by
  have h1 : (((init ++ [x]).length : Int) - 1) = (init.length : Int) := by
    simp
  rw [h1]
  simp [sliceIndex]

theorem sliceIndex_last_nil {α : Type} :
    sliceIndex ([] : List α) ((([] : List α).length : Int) - 1) = .error (.indexOutOfRange (-1) 0) := by
  simp [sliceIndex]

theorem sliceIndex_last_ok_iff {α : Type} (xs : List α) :
    (∃ x, sliceIndex xs ((xs.length : Int) - 1) = .ok x) ↔ xs ≠ [] := by
  constructor
  · rintro ⟨x, hx⟩ h
    subst h
    rw [sliceIndex_last_nil] at hx
    cases hx
  · intro h
    rcases List.eq_nil_or_concat xs with h1 | ⟨init, x, h1⟩
    · exact absurd h1 h
    · rw [List.concat_eq_append] at h1
      subst h1
      exact ⟨x, sliceIndex_last init x⟩

/-! ## The installer -/

theorem downloadMod_mismatch (E : Env) (modDir username token : GoString) (mod : Mod)
    (init : List Release) (release : Release) (b : Bytes) (w : World)
    (hrel : mod.Releases = init ++ [release])
    (hget : E.httpGet w.trace (DownloadBaseURL release.DownloadURL username token) = .ok (.ok b))
    (hsum : fmtHex (E.sha1Sum b) ≠ release.Sha1) :
    downloadMod E modDir username token mod w =
      .done ({ fs := w.fs,
               trace := w.trace ++ [.httpGet (DownloadBaseURL release.DownloadURL username token)] },
             some "Invalid file".toList) := by
  simp only [downloadMod, hrel, sliceIndex_last, hget]
  rw [if_pos hsum]
  rfl

/-- Claim C2: for every world, every Mod whose release list is not empty and
every downloaded payload `b`, if the lower-case hexadecimal SHA-1 of `b` is not
the `Sha1` field of the last release, then `downloadMod` returns the error
`Invalid file`, with the file system as it was and the download request as its
only call (no file is created or written); and the body of the check-update
loop that called it panics with that error, the file system as it was and the
history extended by its two log lines and the download request only:
`deleteOldMod` is not reached. -/
theorem checksum_mismatch (E : Env) (modDir username token : GoString) (mod : Mod)
    (init : List Release) (release : Release) (b : Bytes)
    (hrel : mod.Releases = init ++ [release])
    (hsum : fmtHex (E.sha1Sum b) ≠ release.Sha1) :
    (∀ w : World,
      E.httpGet w.trace (DownloadBaseURL release.DownloadURL username token) = .ok (.ok b) →
      downloadMod E modDir username token mod w =
        .done ({ fs := w.fs,
                 trace := w.trace ++
                   [.httpGet (DownloadBaseURL release.DownloadURL username token)] },
               some "Invalid file".toList)) ∧
    (∀ (L : VersionLib) (cfg : Config) (modInfo : GoMap Mod) (v : LocalMod) (st : RunState)
        (lv nv : L.Version),
      cfg.modDir = modDir → cfg.username = username → cfg.token = token →
      L.NewVersion v.Version = .ok lv → mapGet modInfo v.Name = some mod →
      L.NewVersion release.Version = .ok nv → L.Equal lv nv = false →
      E.httpGet (st.world.trace ++
          [.log (newVersionText mod.Title (L.String lv) (L.String nv)),
           .log (downloadingText mod.Title (L.String nv))])
        (DownloadBaseURL release.DownloadURL username token) = .ok (.ok b) →
      checkUpdate L E cfg modInfo v st =
        .panicked
          { fs := st.world.fs,
            trace := st.world.trace ++
              [.log (newVersionText mod.Title (L.String lv) (L.String nv)),
               .log (downloadingText mod.Title (L.String nv)),
               .httpGet (DownloadBaseURL release.DownloadURL username token)] }
          (.err (some "Invalid file".toList))) := by
  refine ⟨fun w hget => downloadMod_mismatch E modDir username token mod init release b w hrel hget hsum, ?_⟩
  intro L cfg modInfo v st lv nv h1 h2 h3 hlocal hmod hnew hne hget
  have hget2 : E.httpGet ((st.world.emit (.log (newVersionText mod.Title (L.String lv)
      (L.String nv)))).emit (.log (downloadingText mod.Title (L.String nv)))).trace
      (DownloadBaseURL release.DownloadURL username token) = .ok (.ok b) := by
    simp only [World.emit, List.append_assoc]
    exact hget
  have hd := downloadMod_mismatch E modDir username token mod init release b _ hrel hget2 hsum
  simp only [checkUpdate, hlocal, hmod, hrel, sliceIndex_last, hnew, hne, h1, h2, h3, hd]
  simp [World.emit]


theorem fsSet_fsSet (fs : FileSystem) (p : GoString) (f g : File) :
    fsSet (fsSet fs p f) p g = fsSet fs p g := by
  funext q
  simp only [fsSet]
  by_cases h : q = p
  · rw [if_pos h, if_pos h]
  · rw [if_neg h, if_neg h, if_neg h]

theorem downloadMod_success (E : Env) (modDir username token : GoString) (mod : Mod)
    (init : List Release) (release : Release) (b : Bytes) (w : World)
    (hrel : mod.Releases = init ++ [release])
    (hget : E.httpGet w.trace (DownloadBaseURL release.DownloadURL username token) = .ok (.ok b))
    (hsum : fmtHex (E.sha1Sum b) = release.Sha1)
    (hcreate : E.create
      (w.trace ++ [.httpGet (DownloadBaseURL release.DownloadURL username token)])
      (filepathJoin modDir release.FileName) = none)
    (hchown : E.chown
      (w.trace ++ [.httpGet (DownloadBaseURL release.DownloadURL username token),
        .create (filepathJoin modDir release.FileName)])
      (filepathJoin modDir release.FileName) 845 845 = none)
    (hwrite : E.write
      (w.trace ++ [.httpGet (DownloadBaseURL release.DownloadURL username token),
        .create (filepathJoin modDir release.FileName),
        .chown (filepathJoin modDir release.FileName) 845 845])
      (filepathJoin modDir release.FileName) b = none) :
    downloadMod E modDir username token mod w =
      .done ({ fs := fsSet w.fs (filepathJoin modDir release.FileName)
                 { data := b, uid := 845, gid := 845 },
               trace := w.trace ++
                 [.httpGet (DownloadBaseURL release.DownloadURL username token),
                  .create (filepathJoin modDir release.FileName),
                  .chown (filepathJoin modDir release.FileName) 845 845,
                  .write (filepathJoin modDir release.FileName) b] }, none) := by
  simp only [downloadMod, hrel, sliceIndex_last, hget, hsum, ne_eq, not_true_eq_false,
    if_false, osCreate, World.emit, List.append_assoc, List.singleton_append, hcreate,
    fileChown, hchown, fsSet, if_true, fileWrite, hwrite,
    List.cons_append, List.nil_append]
  rw [fsSet_fsSet, fsSet_fsSet]

/-- Claim C3, as amended: for every local mod file name `old` and every registry
Mod whose last release has file name `new`, joined with the mod directory into
two different paths: if the download yields the payload `b`, the lower-case
hexadecimal SHA-1 of `b` equals the release digest, the create, chown and write
steps succeed and the removal of the old file (which is there) succeeds, then
`downloadMod` followed by `deleteOldMod` both return nil, the file
`<modDir>/<new>` exists holding `b` with owner 845:845, the file
`<modDir>/<old>` no longer exists, and every other file is as it was. -/
theorem install_then_delete (E : Env) (modDir username token : GoString) (mod : Mod)
    (init : List Release) (release : Release) (oldName : GoString) (b : Bytes) (w : World)
    (hrel : mod.Releases = init ++ [release])
    (hget : E.httpGet w.trace (DownloadBaseURL release.DownloadURL username token) = .ok (.ok b))
    (hsum : fmtHex (E.sha1Sum b) = release.Sha1)
    (hcreate : E.create
      (w.trace ++ [.httpGet (DownloadBaseURL release.DownloadURL username token)])
      (filepathJoin modDir release.FileName) = none)
    (hchown : E.chown
      (w.trace ++ [.httpGet (DownloadBaseURL release.DownloadURL username token),
        .create (filepathJoin modDir release.FileName)])
      (filepathJoin modDir release.FileName) 845 845 = none)
    (hwrite : E.write
      (w.trace ++ [.httpGet (DownloadBaseURL release.DownloadURL username token),
        .create (filepathJoin modDir release.FileName),
        .chown (filepathJoin modDir release.FileName) 845 845])
      (filepathJoin modDir release.FileName) b = none)
    (hold : w.fs (filepathJoin modDir oldName) ≠ none)
    (hremove : E.remove
      (w.trace ++ [.httpGet (DownloadBaseURL release.DownloadURL username token),
        .create (filepathJoin modDir release.FileName),
        .chown (filepathJoin modDir release.FileName) 845 845,
        .write (filepathJoin modDir release.FileName) b])
      (filepathJoin modDir oldName) = none)
    (hpaths : filepathJoin modDir oldName ≠ filepathJoin modDir release.FileName) :
    ∃ w1 w2, downloadMod E modDir username token mod w = .done (w1, none) ∧
      deleteOldMod E modDir oldName w1 = (w2, none) ∧
      w2.fs (filepathJoin modDir release.FileName) = some { data := b, uid := 845, gid := 845 } ∧
      w2.fs (filepathJoin modDir oldName) = none ∧
      ∀ q, q ≠ filepathJoin modDir release.FileName → q ≠ filepathJoin modDir oldName →
        w2.fs q = w.fs q := by
  have hpaths2 : ¬ filepathJoin modDir release.FileName = filepathJoin modDir oldName :=
    fun h => hpaths h.symm
  obtain ⟨fo, hfo⟩ := Option.ne_none_iff_exists'.mp hold
  refine ⟨_, World.mk
      (fsDel (fsSet w.fs (filepathJoin modDir release.FileName)
        { data := b, uid := 845, gid := 845 }) (filepathJoin modDir oldName))
      (w.trace ++
        [.httpGet (DownloadBaseURL release.DownloadURL username token),
         .create (filepathJoin modDir release.FileName),
         .chown (filepathJoin modDir release.FileName) 845 845,
         .write (filepathJoin modDir release.FileName) b] ++
        [.remove (filepathJoin modDir oldName)]),
    downloadMod_success E modDir username token mod init release b w hrel hget hsum hcreate
      hchown hwrite, ?_, ?_, ?_, ?_⟩
  · simp only [deleteOldMod, osRemove, fsSet, if_neg hpaths, hfo, hremove]
  · simp only [fsDel, fsSet, if_neg hpaths2, if_true]
  · simp only [fsDel, if_true]
  · intro q h1 h2
    simp only [fsDel, fsSet, if_neg h1, if_neg h2]

/-! ## The update decider -/

/-- Claim C4: for every local mod whose version string parses and equals the
version string of the last release of its registry Mod, the body of the
check-update loop ends normally in the state it started from: the history of
calls is unchanged (no download, no file created or removed, no notification),
the file system is unchanged and `isModUpdated` keeps its value. -/
theorem checkUpdate_up_to_date (L : VersionLib) (E : Env) (cfg : Config) (modInfo : GoMap Mod)
    (v : LocalMod) (st : RunState) (mod : Mod) (init : List Release) (release : Release)
    (lv : L.Version)
    (hlocal : L.NewVersion v.Version = .ok lv)
    (hmod : mapGet modInfo v.Name = some mod)
    (hrel : mod.Releases = init ++ [release])
    (heq : v.Version = release.Version) :
    checkUpdate L E cfg modInfo v st = .done st := by
  simp only [checkUpdate, hlocal, hmod, hrel, sliceIndex_last, ← heq, L.equal_self]
  simp

theorem checkUpdates_append (L : VersionLib) (E : Env) (cfg : Config) (modInfo : GoMap Mod)
    (pre post : List LocalMod) (st0 : RunState) :
    checkUpdates L E cfg modInfo (pre ++ post) st0 =
      match checkUpdates L E cfg modInfo pre st0 with
      | .panicked w p => .panicked w p
      | .done st1 => checkUpdates L E cfg modInfo post st1 := by
  induction pre generalizing st0 with
  | nil => rfl
  | cons x pre ih =>
    simp only [List.cons_append, checkUpdates]
    cases checkUpdate L E cfg modInfo x st0 with
    | panicked w p => rfl
    | done st1 => exact ih st1

theorem mapGet_buildModInfo_none (results : List Mod) (k : GoString) :
    mapGet (buildModInfo results) k = none ↔ ∀ m ∈ results, m.Name ≠ k := by
  have key : ∀ (rs : List Mod) (m0 : GoMap Mod),
      mapGet (rs.foldl (fun m r => mapSet m r.Name r) m0) k = none ↔
        mapGet m0 k = none ∧ ∀ m ∈ rs, m.Name ≠ k := by
    intro rs
    induction rs with
    | nil => intro m0; simp
    | cons r rs ih =>
      intro m0
      simp only [List.foldl_cons, ih, mapGet_mapSet, List.mem_cons, forall_eq_or_imp]
      by_cases h : r.Name = k
      · simp [h]
      · simp [h]
  have h := key results []
  simp only [mapGet, true_and] at h
  exact h

/-- Claim C8: for every local mod whose version parses and whose name is not a
key of the metadata mapping, the body of the check-update loop panics (with the
nil error left by the successful parse) in the world it started from, and the
loop stops there: the run ends in the world left by the mods before it, with no
call made for this mod or for any mod after it.  The name is not a key of the
mapping built from the registry response exactly when no Mod of the response
has it. -/
theorem missing_registry_entry (L : VersionLib) (E : Env) (cfg : Config) (modInfo : GoMap Mod)
    (v : LocalMod) (lv : L.Version)
    (hlocal : L.NewVersion v.Version = .ok lv)
    (hmiss : mapGet modInfo v.Name = none) :
    (∀ st, checkUpdate L E cfg modInfo v st = .panicked st.world (.err none)) ∧
    (∀ pre post st0 st1, checkUpdates L E cfg modInfo pre st0 = .done st1 →
      checkUpdates L E cfg modInfo (pre ++ v :: post) st0 = .panicked st1.world (.err none)) ∧
    (∀ results, mapGet (buildModInfo results) v.Name = none ↔
      ∀ m ∈ results, m.Name ≠ v.Name) := by
  have h1 : ∀ st, checkUpdate L E cfg modInfo v st = .panicked st.world (.err none) := by
    intro st
    simp only [checkUpdate, hlocal, hmiss]
  refine ⟨h1, ?_, fun results => mapGet_buildModInfo_none results v.Name⟩
  intro pre post st0 st1 hpre
  rw [checkUpdates_append, hpre]
  simp only [checkUpdates, h1]

/-- Claim C10: for every local mod whose version parses and whose registry Mod
has an empty release list, the body of the check-update loop panics with an
index out of range (index -1, length 0) in the world it started from, so the
mod is classified neither way and the run stops before any download or file
change; `downloadMod` on such a Mod panics the same way without a call.  The
selection of the last release is in bounds exactly when the list is not
empty. -/
theorem empty_releases_abort (L : VersionLib) (E : Env) (cfg : Config) (modInfo : GoMap Mod)
    (v : LocalMod) (mod : Mod) (lv : L.Version)
    (hlocal : L.NewVersion v.Version = .ok lv)
    (hmod : mapGet modInfo v.Name = some mod)
    (hrel : mod.Releases = []) :
    (∀ st, checkUpdate L E cfg modInfo v st = .panicked st.world (.indexOutOfRange (-1) 0)) ∧
    (∀ pre post st0 st1, checkUpdates L E cfg modInfo pre st0 = .done st1 →
      checkUpdates L E cfg modInfo (pre ++ v :: post) st0 =
        .panicked st1.world (.indexOutOfRange (-1) 0)) ∧
    (∀ modDir username token w,
      downloadMod E modDir username token mod w = .panicked w (.indexOutOfRange (-1) 0)) ∧
    (∀ rs : List Release,
      (∃ r, sliceIndex rs ((rs.length : Int) - 1) = .ok r) ↔ rs ≠ []) := by
  have h1 : ∀ st, checkUpdate L E cfg modInfo v st =
      .panicked st.world (.indexOutOfRange (-1) 0) := by
    intro st
    simp only [checkUpdate, hlocal, hmod, hrel, sliceIndex_last_nil]
  refine ⟨h1, ?_, ?_, sliceIndex_last_ok_iff⟩
  · intro pre post st0 st1 hpre
    rw [checkUpdates_append, hpre]
    simp only [checkUpdates, h1]
  · intro modDir username token w
    simp only [downloadMod, hrel, sliceIndex_last_nil]

/-! ## The service controller -/

/-- Claim C7: for every composePath, composeFilePath and serviceName,
`updateServer` starts the `pull <service>` command first.  If pull fails,
`updateServer` returns that error and the history gains the pull command only
(`up -d <service>` is not started).  If pull succeeds, the history gains the
pull command and then the `up -d <service>` command, once, and `updateServer`
returns the result of `up`.  The file system is untouched either way. -/
theorem updateServer_order (E : Env) (composePath composeFilePath serviceName : GoString)
    (w : World) :
    (∀ e, E.run w.trace composePath
        ["-f".toList, composeFilePath, "pull".toList, serviceName] = some e →
      updateServer E composePath composeFilePath serviceName w =
        ({ fs := w.fs,
           trace := w.trace ++ [pullCommand composePath composeFilePath serviceName] },
         some e)) ∧
    (E.run w.trace composePath
        ["-f".toList, composeFilePath, "pull".toList, serviceName] = none →
      updateServer E composePath composeFilePath serviceName w =
        ({ fs := w.fs,
           trace := w.trace ++ [pullCommand composePath composeFilePath serviceName,
             upCommand composePath composeFilePath serviceName] },
         E.run (w.trace ++ [pullCommand composePath composeFilePath serviceName]) composePath
           ["-f".toList, composeFilePath, "up".toList, "-d".toList, serviceName])) ∧
    upCommand composePath composeFilePath serviceName ≠
      pullCommand composePath composeFilePath serviceName := by
  refine ⟨?_, ?_, ?_⟩
  · intro e h
    simp only [updateServer, execRun, h, World.emit, pullCommand]
  · intro h
    simp only [updateServer, execRun, h, World.emit, pullCommand, upCommand,
      List.append_assoc, List.singleton_append]
  · simp [upCommand, pullCommand]

/-! ## Shapes of the effects -/

theorem osCreate_shape (E : Env) (w : World) (p : GoString) :
    ∃ fs1 r, osCreate E w p = ({ fs := fs1, trace := w.trace ++ [.create p] }, r) := by
  simp only [osCreate]
  cases E.create w.trace p with
  | none => exact ⟨_, _, rfl⟩
  | some e => exact ⟨_, _, rfl⟩

theorem fileChown_shape (E : Env) (w : World) (p : GoString) (uid gid : Nat) :
    ∃ fs1 r, fileChown E w p uid gid =
      ({ fs := fs1, trace := w.trace ++ [.chown p uid gid] }, r) := by
  simp only [fileChown]
  cases E.chown w.trace p uid gid with
  | none =>
    cases w.fs p with
    | none => exact ⟨_, _, rfl⟩
    | some f => exact ⟨_, _, rfl⟩
  | some e => exact ⟨_, _, rfl⟩

theorem fileWrite_shape (E : Env) (w : World) (p : GoString) (b : Bytes) :
    ∃ fs1 r, fileWrite E w p b = ({ fs := fs1, trace := w.trace ++ [.write p b] }, r) := by
  simp only [fileWrite]
  cases w.fs p with
  | none => exact ⟨_, _, rfl⟩
  | some f => exact ⟨_, _, rfl⟩

theorem osRemove_shape (E : Env) (w : World) (p : GoString) :
    ∃ fs1 r, osRemove E w p = ({ fs := fs1, trace := w.trace ++ [.remove p] }, r) := by
  simp only [osRemove]
  cases w.fs p with
  | none => exact ⟨_, _, rfl⟩
  | some f =>
    cases E.remove w.trace p with
    | none => exact ⟨_, _, rfl⟩
    | some e => exact ⟨_, _, rfl⟩

theorem downloadMod_shape (E : Env) (modDir username token : GoString) (mod : Mod)
    (init : List Release) (release : Release) (w : World)
    (hrel : mod.Releases = init ++ [release]) :
    ∃ fs1 rest r, downloadMod E modDir username token mod w =
        .done ({ fs := fs1,
                 trace := w.trace ++
                   .httpGet (DownloadBaseURL release.DownloadURL username token) :: rest }, r) ∧
      ∀ e ∈ rest, e.isRemove = false ∧ e.isRun = false := by
  simp only [downloadMod, hrel, sliceIndex_last]
  cases E.httpGet w.trace (DownloadBaseURL release.DownloadURL username token) with
  | error e => exact ⟨_, [], _, rfl, by simp⟩
  | ok body =>
    cases body with
    | error e => exact ⟨_, [], _, rfl, by simp⟩
    | ok b =>
      by_cases hsum : fmtHex (E.sha1Sum b) = release.Sha1
      · simp only [hsum, ne_eq, not_true_eq_false, if_false]
        obtain ⟨fs2, r2, h2⟩ := osCreate_shape E
          (w.emit (.httpGet (DownloadBaseURL release.DownloadURL username token)))
          (filepathJoin modDir release.FileName)
        rw [h2]
        cases r2 with
        | some e =>
          exact ⟨fs2, [.create (filepathJoin modDir release.FileName)], some e, by simp [World.emit],
            by simp [Event.isRemove, Event.isRun]⟩
        | none =>
          simp only
          obtain ⟨fs3, r3, h3⟩ := fileChown_shape E
            { fs := fs2, trace := (w.emit (.httpGet (DownloadBaseURL release.DownloadURL
              username token))).trace ++ [.create (filepathJoin modDir release.FileName)] }
            (filepathJoin modDir release.FileName) 845 845
          rw [h3]
          cases r3 with
          | some e =>
            exact ⟨fs3, [.create (filepathJoin modDir release.FileName),
              .chown (filepathJoin modDir release.FileName) 845 845], some e, by simp [World.emit],
              by simp [Event.isRemove, Event.isRun]⟩
          | none =>
            simp only
            obtain ⟨fs4, r4, h4⟩ := fileWrite_shape E
              { fs := fs3, trace := (w.emit (.httpGet (DownloadBaseURL release.DownloadURL
                username token))).trace ++ [.create (filepathJoin modDir release.FileName)] ++
                [.chown (filepathJoin modDir release.FileName) 845 845] }
              (filepathJoin modDir release.FileName) b
            rw [h4]
            exact ⟨fs4, [.create (filepathJoin modDir release.FileName),
              .chown (filepathJoin modDir release.FileName) 845 845,
              .write (filepathJoin modDir release.FileName) b], r4, by simp [World.emit],
              by simp [Event.isRemove, Event.isRun]⟩
      · simp only [ne_eq, hsum, not_false_eq_true, if_true]
        exact ⟨_, [], _, rfl, by simp⟩

theorem outdated_trace_shape (L : VersionLib) (E : Env) (cfg : Config)
    (modInfo : GoMap Mod) (v : LocalMod) (st : RunState) (mod : Mod) (init : List Release)
    (release : Release) (lv nv : L.Version)
    (hlocal : L.NewVersion v.Version = .ok lv)
    (hmod : mapGet modInfo v.Name = some mod)
    (hrel : mod.Releases = init ++ [release])
    (hnew : L.NewVersion release.Version = .ok nv)
    (hne : L.Equal lv nv = false) :
    ∃ rest, ((checkUpdate L E cfg modInfo v st).worldWith RunState.world).trace =
      st.world.trace ++
        .log (newVersionText mod.Title (L.String lv) (L.String nv)) ::
        .log (downloadingText mod.Title (L.String nv)) ::
        .httpGet (DownloadBaseURL release.DownloadURL cfg.username cfg.token) :: rest := by
  obtain ⟨fs1, rest1, r1, hd, _⟩ := downloadMod_shape E cfg.modDir cfg.username cfg.token mod
    init release ((st.world.emit (.log (newVersionText mod.Title (L.String lv)
      (L.String nv)))).emit (.log (downloadingText mod.Title (L.String nv)))) hrel
  simp only [checkUpdate, hlocal, hmod, hrel, sliceIndex_last, hnew, hne, if_true, hd]
  cases r1 with
  | some e => exact ⟨rest1, by simp [Outcome.worldWith, World.emit]⟩
  | none =>
    simp only [deleteOldMod]
    obtain ⟨fs2, r2, h2⟩ := osRemove_shape E
      { fs := fs1, trace := ((st.world.emit (.log (newVersionText mod.Title (L.String lv)
        (L.String nv)))).emit (.log (downloadingText mod.Title (L.String nv)))).trace ++
        .httpGet (DownloadBaseURL release.DownloadURL cfg.username cfg.token) :: rest1 }
      (filepathJoin cfg.modDir v.FileName)
    rw [h2]
    cases r2 with
    | some e =>
      exact ⟨rest1 ++ [.remove (filepathJoin cfg.modDir v.FileName)],
        by simp [Outcome.worldWith, World.emit]⟩
    | none =>
      simp only [incoming]
      cases E.incoming _ cfg.webhookURL
        (updatedText mod.Title (L.String lv) (L.String nv)) with
      | some e =>
        exact ⟨rest1 ++ [.remove (filepathJoin cfg.modDir v.FileName),
          .incoming cfg.webhookURL (updatedText mod.Title (L.String lv) (L.String nv))],
          by simp [Outcome.worldWith, World.emit]⟩
      | none =>
        exact ⟨rest1 ++ [.remove (filepathJoin cfg.modDir v.FileName),
          .incoming cfg.webhookURL (updatedText mod.Title (L.String lv) (L.String nv))],
          by simp [Outcome.worldWith, World.emit]⟩

/-- Claim C5, as amended: for every local mod whose version and whose registry
Mod's last-release version both parse, if the two parsed versions are not
`Equal` (whichever is the older) then the mod is treated as needing update:
the body of the check-update loop does not end in the state it started from; it
logs the new version and the download, and `downloadMod` issues the download
request of the last release of that Mod: whatever follows, the history goes on
with these three calls. -/
theorem checkUpdate_outdated (L : VersionLib) (E : Env) (cfg : Config) (modInfo : GoMap Mod)
    (v : LocalMod) (st : RunState) (mod : Mod) (init : List Release) (release : Release)
    (lv nv : L.Version)
    (hlocal : L.NewVersion v.Version = .ok lv)
    (hmod : mapGet modInfo v.Name = some mod)
    (hrel : mod.Releases = init ++ [release])
    (hnew : L.NewVersion release.Version = .ok nv)
    (hne : L.Equal lv nv = false) :
    checkUpdate L E cfg modInfo v st ≠ .done st ∧
    ∃ rest, ((checkUpdate L E cfg modInfo v st).worldWith RunState.world).trace =
      st.world.trace ++
        .log (newVersionText mod.Title (L.String lv) (L.String nv)) ::
        .log (downloadingText mod.Title (L.String nv)) ::
        .httpGet (DownloadBaseURL release.DownloadURL cfg.username cfg.token) :: rest := by
  obtain ⟨rest, hrest⟩ := outdated_trace_shape L E cfg modInfo v st mod init release lv nv
    hlocal hmod hrel hnew hne
  refine ⟨fun hdone => ?_, rest, hrest⟩
  rw [hdone] at hrest
  simp only [Outcome.worldWith] at hrest
  have hlen := congrArg List.length hrest
  simp only [List.length_append, List.length_cons] at hlen
  omega

theorem countP_eq_zero_of_forall (p : Event → Bool) (l : List Event)
    (h : ∀ e ∈ l, p e = false) : l.countP p = 0 := by
  rw [List.countP_eq_zero]
  intro e he
  rw [h e he]
  simp

theorem count_eq_zero_of_noRun (l : List Event) (c : Event) (hc : c.isRun = true)
    (h : ∀ e ∈ l, e.isRun = false) : l.count c = 0 := by
  rw [List.count_eq_zero]
  intro hmem
  rw [h c hmem] at hc
  cases hc

theorem checkUpdate_done (L : VersionLib) (E : Env) (cfg : Config) (modInfo : GoMap Mod)
    (v : LocalMod) (st st1 : RunState) (h : checkUpdate L E cfg modInfo v st = .done st1) :
    (needsUpdate L modInfo v = false ∧ st1 = st) ∨
    (needsUpdate L modInfo v = true ∧ st1.isModUpdated = true ∧
      ∃ evs, st1.world.trace = st.world.trace ++ evs ∧
        evs.countP Event.isRemove = 1 ∧ ∀ e ∈ evs, e.isRun = false) := by
  simp only [checkUpdate] at h
  cases hl : L.NewVersion v.Version with
  | error e => rw [hl] at h; cases h
  | ok lv =>
    rw [hl] at h
    simp only at h
    cases hm : mapGet modInfo v.Name with
    | none => rw [hm] at h; cases h
    | some mod =>
      rw [hm] at h
      simp only at h
      rcases List.eq_nil_or_concat mod.Releases with hrel | ⟨init, release, hrel⟩
      · rw [hrel, sliceIndex_last_nil] at h; cases h
      · rw [List.concat_eq_append] at hrel
        rw [hrel, sliceIndex_last] at h
        simp only at h
        cases hn : L.NewVersion release.Version with
        | error e => rw [hn] at h; cases h
        | ok nv =>
          rw [hn] at h
          simp only at h
          by_cases hne : L.Equal lv nv = false
          · right
            refine ⟨by simp only [needsUpdate, hl, hm, hrel, sliceIndex_last, hn, hne]; rfl, ?_⟩
            rw [if_pos hne] at h
            obtain ⟨fs1, rest1, r1, hd, hrest⟩ := downloadMod_shape E cfg.modDir cfg.username
              cfg.token mod init release ((st.world.emit (.log (newVersionText mod.Title
                (L.String lv) (L.String nv)))).emit (.log (downloadingText mod.Title
                (L.String nv)))) hrel
            rw [hd] at h
            cases r1 with
            | some e => cases h
            | none =>
              simp only [deleteOldMod] at h
              obtain ⟨fs2, r2, h2⟩ := osRemove_shape E
                { fs := fs1, trace := ((st.world.emit (.log (newVersionText mod.Title
                  (L.String lv) (L.String nv)))).emit (.log (downloadingText mod.Title
                  (L.String nv)))).trace ++
                  .httpGet (DownloadBaseURL release.DownloadURL cfg.username cfg.token) :: rest1 }
                (filepathJoin cfg.modDir v.FileName)
              rw [h2] at h
              cases r2 with
              | some e => cases h
              | none =>
                simp only [incoming] at h
                cases hi : E.incoming (st.world.trace ++
                    [.log (newVersionText mod.Title (L.String lv) (L.String nv))] ++
                    [.log (downloadingText mod.Title (L.String nv))] ++
                    .httpGet (DownloadBaseURL release.DownloadURL cfg.username cfg.token) ::
                      rest1 ++ [.remove (filepathJoin cfg.modDir v.FileName)])
                  cfg.webhookURL (updatedText mod.Title (L.String lv) (L.String nv)) with
                | some e =>
                  simp only [World.emit] at h
                  rw [hi] at h
                  cases h
                | none =>
                  simp only [World.emit] at h
                  rw [hi] at h
                  simp only [Outcome.done.injEq] at h
                  subst h
                  refine ⟨rfl, [.log (newVersionText mod.Title (L.String lv) (L.String nv)),
                    .log (downloadingText mod.Title (L.String nv)),
                    .httpGet (DownloadBaseURL release.DownloadURL cfg.username cfg.token)] ++
                    rest1 ++ [.remove (filepathJoin cfg.modDir v.FileName),
                    .incoming cfg.webhookURL (updatedText mod.Title (L.String lv)
                      (L.String nv))], by simp, ?_, ?_⟩
                  · simp only [List.countP_append, List.countP_cons, List.countP_nil,
                      Event.isRemove, countP_eq_zero_of_forall Event.isRemove rest1
                        (fun e he => (hrest e he).1)]
                    simp
                  · intro e he
                    simp only [List.mem_append, List.mem_cons, List.mem_singleton,
                      List.not_mem_nil, or_false] at he
                    rcases he with ((he | he | he) | he) | he | he
                    · rw [he]; rfl
                    · rw [he]; rfl
                    · rw [he]; rfl
                    · exact (hrest e he).2
                    · rw [he]; rfl
                    · rw [he]; rfl
          · left
            rw [if_neg hne] at h
            simp only [Outcome.done.injEq] at h
            have heq : L.Equal lv nv = true := by simpa using hne
            exact ⟨by simp only [needsUpdate, hl, hm, hrel, sliceIndex_last, hn, heq]; rfl,
              h.symm⟩

theorem checkUpdates_done (L : VersionLib) (E : Env) (cfg : Config) (modInfo : GoMap Mod)
    (vs : List LocalMod) (st0 st : RunState)
    (h : checkUpdates L E cfg modInfo vs st0 = .done st) :
    ∃ evs, st.world.trace = st0.world.trace ++ evs ∧ (∀ e ∈ evs, e.isRun = false) ∧
      st.isModUpdated = (st0.isModUpdated || decide (0 < evs.countP Event.isRemove)) ∧
      evs.countP Event.isRemove = vs.countP (needsUpdate L modInfo) := by
  induction vs generalizing st0 with
  | nil =>
    simp only [checkUpdates, Outcome.done.injEq] at h
    subst h
    exact ⟨[], by simp, by simp, by simp, by simp⟩
  | cons v vs ih =>
    simp only [checkUpdates] at h
    cases hc : checkUpdate L E cfg modInfo v st0 with
    | panicked w p => rw [hc] at h; cases h
    | done st1 =>
      rw [hc] at h
      simp only at h
      obtain ⟨evs2, ht2, hr2, hf2, hn2⟩ := ih st1 h
      rcases checkUpdate_done L E cfg modInfo v st0 st1 hc with
        ⟨hno, h1⟩ | ⟨hyes, hf1, evs1, ht1, hc1, hr1⟩
      · subst h1
        refine ⟨evs2, ht2, hr2, hf2, ?_⟩
        rw [hn2, List.countP_cons, hno]
        simp
      · refine ⟨evs1 ++ evs2, by rw [ht2, ht1, List.append_assoc], ?_, ?_, ?_⟩
        · intro e he
          rw [List.mem_append] at he
          rcases he with he | he
          · exact hr1 e he
          · exact hr2 e he
        · rw [hf2, hf1, List.countP_append, hc1]
          simp
        · rw [List.countP_append, hc1, hn2, List.countP_cons, hyes]
          simp [Nat.add_comm]

theorem prepare_done (E : Env) (cfg : Config) (fs : FileSystem) (w : World)
    (localMods : GoMap LocalMod) (modInfo : GoMap Mod)
    (h : prepare E cfg fs = .done (w, localMods, modInfo)) :
    (∀ e ∈ w.trace, e.isRun = false) ∧ installCount w.trace = 0 := by
  simp only [prepare] at h
  cases hr : E.readDir [] cfg.modDir with
  | error e => rw [hr] at h; cases h
  | ok files =>
    rw [hr] at h
    simp only at h
    cases hs : scanLocalMods files with
    | error p => rw [hs] at h; cases h
    | ok lm =>
      rw [hs] at h
      simp only [getModInfo] at h
      split at h
      · cases h
      · rename_i w2 res heq
        simp only [Outcome.done.injEq, Prod.mk.injEq] at h
        simp only [Prod.mk.injEq] at heq
        obtain ⟨hw, _⟩ := h
        obtain ⟨hw2, _⟩ := heq
        subst hw
        subst hw2
        simp [World.emit, Event.isRun, installCount, Event.isRemove]

theorem updateServerIfAsked_shape (E : Env) (cfg : Config) (w : World) :
    ∃ evs, (updateServerIfAsked E cfg w).finalWorld.trace = w.trace ++ evs ∧
      evs.count (restartCommand cfg) = 0 ∧ evs.countP Event.isRemove = 0 := by
  simp only [updateServerIfAsked]
  by_cases hu : cfg.isUpdateServer = true
  · rw [if_pos hu]
    simp only [updateServer, execRun]
    cases E.run w.trace cfg.composePath
        ["-f".toList, cfg.composeFilePath, "pull".toList, cfg.serviceName] with
    | some e =>
      exact ⟨[pullCommand cfg.composePath cfg.composeFilePath cfg.serviceName],
        by simp [Outcome.finalWorld, Outcome.worldWith, World.emit, pullCommand],
        by simp [pullCommand, restartCommand], by simp [pullCommand, Event.isRemove]⟩
    | none =>
      simp only
      cases E.run (w.emit (.run cfg.composePath
          ["-f".toList, cfg.composeFilePath, "pull".toList, cfg.serviceName])).trace
          cfg.composePath
          ["-f".toList, cfg.composeFilePath, "up".toList, "-d".toList, cfg.serviceName] with
      | some e =>
        exact ⟨[pullCommand cfg.composePath cfg.composeFilePath cfg.serviceName,
          upCommand cfg.composePath cfg.composeFilePath cfg.serviceName],
          by simp [Outcome.finalWorld, Outcome.worldWith, World.emit, pullCommand, upCommand],
          by simp [pullCommand, upCommand, restartCommand],
          by simp [pullCommand, upCommand, Event.isRemove]⟩
      | none =>
        simp only [incoming]
        cases E.incoming ((w.emit (.run cfg.composePath
            ["-f".toList, cfg.composeFilePath, "pull".toList, cfg.serviceName])).emit
            (.run cfg.composePath ["-f".toList, cfg.composeFilePath, "up".toList, "-d".toList,
              cfg.serviceName])).trace cfg.webhookURL "Server updated".toList with
        | some e =>
          exact ⟨[pullCommand cfg.composePath cfg.composeFilePath cfg.serviceName,
            upCommand cfg.composePath cfg.composeFilePath cfg.serviceName,
            .incoming cfg.webhookURL "Server updated".toList],
            by simp [Outcome.finalWorld, Outcome.worldWith, World.emit, pullCommand, upCommand],
            by simp [pullCommand, upCommand, restartCommand],
            by simp [pullCommand, upCommand, Event.isRemove]⟩
        | none =>
          exact ⟨[pullCommand cfg.composePath cfg.composeFilePath cfg.serviceName,
            upCommand cfg.composePath cfg.composeFilePath cfg.serviceName,
            .incoming cfg.webhookURL "Server updated".toList],
            by simp [Outcome.finalWorld, Outcome.worldWith, World.emit, pullCommand, upCommand],
            by simp [pullCommand, upCommand, restartCommand],
            by simp [pullCommand, upCommand, Event.isRemove]⟩
  · rw [if_neg hu]
    exact ⟨[], by simp [Outcome.finalWorld, Outcome.worldWith], by simp, by simp⟩

/-- Claim C6: in every run of `main` whose preparation and check-update loop
complete without a panic, the restart command
`<composePath> -f <composeFilePath> restart <serviceName>` is started exactly
once if one or more mods were installed, however many, and not at all if none
was.  The mods installed are the local mods for which the loop found a new
version; `isModUpdated` is set exactly when there is one, and nothing after the
loop installs a mod. -/
theorem restart_exactly_once (L : VersionLib) (E : Env) (cfg : Config) (fs : FileSystem)
    (w : World) (localMods : GoMap LocalMod) (modInfo : GoMap Mod) (st : RunState)
    (hprep : prepare E cfg fs = .done (w, localMods, modInfo))
    (hloop : checkUpdates L E cfg modInfo ((rangeLocalMods E w localMods).map Prod.snd)
      { world := w, isModUpdated := false } = .done st) :
    installCount st.world.trace =
      ((rangeLocalMods E w localMods).map Prod.snd).countP (needsUpdate L modInfo) ∧
    (st.isModUpdated = true ↔ 0 < installCount st.world.trace) ∧
    installCount (main L E cfg fs).finalWorld.trace = installCount st.world.trace ∧
    (main L E cfg fs).finalWorld.trace.count (restartCommand cfg) =
      if 0 < installCount st.world.trace then 1 else 0 := by
  obtain ⟨hwrun, hwinst⟩ := prepare_done E cfg fs w localMods modInfo hprep
  obtain ⟨evs, ht, hr, hf, hn⟩ := checkUpdates_done L E cfg modInfo _ _ st hloop
  simp only [Bool.false_or] at hf ht
  have hinst : installCount st.world.trace = evs.countP Event.isRemove := by
    simp only [installCount] at hwinst ⊢
    rw [ht, List.countP_append, hwinst, Nat.zero_add]
  have hflag : st.isModUpdated = true ↔ 0 < installCount st.world.trace := by
    rw [hf, hinst]
    simp
  have hcount : st.world.trace.count (restartCommand cfg) = 0 := by
    apply count_eq_zero_of_noRun st.world.trace (restartCommand cfg) rfl
    intro e he
    rw [ht, List.mem_append] at he
    rcases he with he | he
    · exact hwrun e he
    · exact hr e he
  refine ⟨by rw [hinst, hn], hflag, ?_⟩
  simp only [main, hprep, hloop, restartIfUpdated]
  by_cases hu : st.isModUpdated = true
  · have hpos : 0 < installCount st.world.trace := hflag.mp hu
    rw [if_pos hu, if_pos hpos]
    simp only [execRun]
    cases E.run st.world.trace cfg.composePath
        ["-f".toList, cfg.composeFilePath, "restart".toList, cfg.serviceName] with
    | some e =>
      simp only [Outcome.finalWorld, Outcome.worldWith, World.emit, installCount,
        List.countP_append, List.count_append, hcount]
      simp [Event.isRemove, restartCommand]
    | none =>
      simp only
      obtain ⟨evs2, h2, hc2, hi2⟩ := updateServerIfAsked_shape E cfg
        (((st.world.emit (.run cfg.composePath ["-f".toList, cfg.composeFilePath,
          "restart".toList, cfg.serviceName])).emit
          (.log "Wait for restart.....".toList)).emit (.sleep 5))
      rw [h2]
      simp only [World.emit, installCount, List.countP_append, List.count_append, hcount, hc2,
        hi2]
      simp [Event.isRemove, restartCommand]
  · have hzero : ¬ 0 < installCount st.world.trace := fun h => hu (hflag.mpr h)
    rw [if_neg hu, if_neg hzero]
    simp only
    obtain ⟨evs2, h2, hc2, hi2⟩ := updateServerIfAsked_shape E cfg st.world
    rw [h2]
    simp only [installCount, List.countP_append, List.count_append, hcount, hc2, hi2]
    simp

/-! ## The claims on the sample run -/

theorem scanEntry_round_trip_witness :
    scanLocalMods ["alien-biomes".toList ++ "_".toList ++ "1.0.0".toList ++ ".zip".toList] =
      .ok [("alien-biomes".toList,
        { Name := "alien-biomes".toList,
          FileName := "alien-biomes".toList ++ "_".toList ++ "1.0.0".toList ++ ".zip".toList,
          Version := "1.0.0".toList })] :=
  (scanEntry_round_trip [] "alien-biomes".toList "1.0.0".toList (by decide) (by decide)
    (by decide) (by decide)).2.2

/-- Claim C1 fails on a mod name with an underscore: the entry
`Noxys_Trees_0.1.0.zip` of the mod `Noxys_Trees` at version `0.1.0` is stored
under the name `Noxys` with version `Trees`, and nothing is stored under
`Noxys_Trees`.  It fails as well on a version with an underscore (`1_0` is
stored as `1`) and on a name or a version that contains `.zip` (the name
`a.zipped` is stored as `aped`, the version `1.zip` as `1`). -/
theorem scan_underscore_in_name :
    scanLocalMods ["Noxys_Trees".toList ++ "_".toList ++ "0.1.0".toList ++ ".zip".toList] =
      .ok [("Noxys".toList,
        { Name := "Noxys".toList, FileName := "Noxys_Trees_0.1.0.zip".toList,
          Version := "Trees".toList })] ∧
    mapGet [("Noxys".toList,
        ({ Name := "Noxys".toList, FileName := "Noxys_Trees_0.1.0.zip".toList,
           Version := "Trees".toList } : LocalMod))] "Noxys_Trees".toList = none ∧
    scanLocalMods ["a".toList ++ "_".toList ++ "1_0".toList ++ ".zip".toList] =
      .ok [("a".toList,
        { Name := "a".toList, FileName := "a_1_0.zip".toList, Version := "1".toList })] ∧
    scanLocalMods ["a.zipped".toList ++ "_".toList ++ "1.0".toList ++ ".zip".toList] =
      .ok [("aped".toList,
        { Name := "aped".toList, FileName := "a.zipped_1.0.zip".toList,
          Version := "1.0".toList })] ∧
    scanLocalMods ["a".toList ++ "_".toList ++ "1.zip".toList ++ ".zip".toList] =
      .ok [("a".toList,
        { Name := "a".toList, FileName := "a_1.zip.zip".toList, Version := "1".toList })] := by
  decide

theorem scan_last_wins_witness :
    scanLocalMods ["alien-biomes_1.0.0.zip".toList, "mod-list.json".toList,
        "alien-biomes_1.0.1.zip".toList] =
      .ok [("alien-biomes".toList,
        { Name := "alien-biomes".toList, FileName := "alien-biomes_1.0.1.zip".toList,
          Version := "1.0.1".toList })] ∧
    ([("alien-biomes".toList,
        ({ Name := "alien-biomes".toList, FileName := "alien-biomes_1.0.1.zip".toList,
           Version := "1.0.1".toList } : LocalMod))].map Prod.fst).Nodup :=
  ⟨by decide,
    ((scan_last_wins ["alien-biomes_1.0.0.zip".toList, "mod-list.json".toList,
      "alien-biomes_1.0.1.zip".toList]).2 _ (by decide)).1⟩

theorem checksum_mismatch_witness :
    fmtHex (corruptEnv.sha1Sum [1, 2, 3]) ≠ sampleRelease.Sha1 ∧
    (checkUpdate goVersion corruptEnv defaultConfig [("alien-biomes".toList, sampleMod)]
      sampleLocal { world := sampleWorld, isModUpdated := false }).panicValue =
        some (.err (some "Invalid file".toList)) ∧
    ((checkUpdate goVersion corruptEnv defaultConfig [("alien-biomes".toList, sampleMod)]
      sampleLocal { world := sampleWorld, isModUpdated := false }).worldWith
        RunState.world).fs = sampleFs := by
  have h := (checksum_mismatch corruptEnv defaultConfig.modDir defaultConfig.username
    defaultConfig.token sampleMod [olderRelease] sampleRelease [1, 2, 3] rfl (by decide)).2
    goVersion defaultConfig [("alien-biomes".toList, sampleMod)] sampleLocal
    { world := sampleWorld, isModUpdated := false } { segments := [1, 0, 0] }
    { segments := [1, 0, 1] } rfl rfl rfl rfl rfl rfl rfl rfl
  refine ⟨by decide, ?_, ?_⟩
  · rw [h]; rfl
  · rw [h]; rfl

theorem install_then_delete_witness :
    ∃ w1 w2, downloadMod sampleEnv defaultConfig.modDir [] [] sampleMod sampleWorld =
        .done (w1, none) ∧
      deleteOldMod sampleEnv defaultConfig.modDir "alien-biomes_1.0.0.zip".toList w1 =
        (w2, none) ∧
      w2.fs (filepathJoin defaultConfig.modDir sampleRelease.FileName) =
        some { data := [1, 2, 3], uid := 845, gid := 845 } ∧
      w2.fs (filepathJoin defaultConfig.modDir "alien-biomes_1.0.0.zip".toList) = none ∧
      ∀ q, q ≠ filepathJoin defaultConfig.modDir sampleRelease.FileName →
        q ≠ filepathJoin defaultConfig.modDir "alien-biomes_1.0.0.zip".toList →
        w2.fs q = sampleWorld.fs q :=
  install_then_delete sampleEnv defaultConfig.modDir [] [] sampleMod [olderRelease]
    sampleRelease "alien-biomes_1.0.0.zip".toList [1, 2, 3] sampleWorld rfl rfl (by decide)
    rfl rfl rfl (by decide) rfl (by decide)

/-- Claim C3 fails when the last release carries the file name of the local
file: with the digest matching and the create, chown, write and remove steps
all succeeding, `downloadMod` overwrites `alien-biomes_1.0.0.zip` and
`deleteOldMod` then removes it, so the new file does not exist after the
install; the body of the check-update loop ends normally all the same. -/
theorem install_same_file_name :
    clashRelease.FileName = sampleLocal.FileName ∧
    sampleWorld.fs (filepathJoin defaultConfig.modDir sampleLocal.FileName) =
      some { data := [80, 75, 3, 4], uid := 845, gid := 845 } ∧
    fmtHex (sampleEnv.sha1Sum [1, 2, 3]) = clashRelease.Sha1 ∧
    (checkUpdate goVersion sampleEnv defaultConfig [("alien-biomes".toList, clashMod)]
      sampleLocal { world := sampleWorld, isModUpdated := false }).panicValue = none ∧
    ((checkUpdate goVersion sampleEnv defaultConfig [("alien-biomes".toList, clashMod)]
      sampleLocal { world := sampleWorld, isModUpdated := false }).worldWith
        RunState.world).trace.map Event.isEffect =
      [false, false, true, true, true, true, true, true] ∧
    ((checkUpdate goVersion sampleEnv defaultConfig [("alien-biomes".toList, clashMod)]
      sampleLocal { world := sampleWorld, isModUpdated := false }).worldWith
        RunState.world).fs (filepathJoin defaultConfig.modDir clashRelease.FileName) = none := by
  decide

theorem checkUpdate_up_to_date_witness :
    checkUpdate goVersion sampleEnv defaultConfig [("alien-biomes".toList, currentMod)]
      sampleLocal { world := sampleWorld, isModUpdated := false } =
      .done { world := sampleWorld, isModUpdated := false } :=
  checkUpdate_up_to_date goVersion sampleEnv defaultConfig [("alien-biomes".toList, currentMod)]
    sampleLocal { world := sampleWorld, isModUpdated := false } currentMod [] olderRelease
    { segments := [1, 0, 0] } rfl rfl rfl rfl

theorem checkUpdate_outdated_witness :
    ∃ rest, ((checkUpdate goVersion sampleEnv defaultConfig
        [("alien-biomes".toList, sampleMod)] sampleLocal
        { world := sampleWorld, isModUpdated := false }).worldWith RunState.world).trace =
      sampleWorld.trace ++
        .log (newVersionText sampleMod.Title "1.0.0".toList "1.0.1".toList) ::
        .log (downloadingText sampleMod.Title "1.0.1".toList) ::
        .httpGet (DownloadBaseURL sampleRelease.DownloadURL [] []) :: rest :=
  (checkUpdate_outdated goVersion sampleEnv defaultConfig [("alien-biomes".toList, sampleMod)]
    sampleLocal { world := sampleWorld, isModUpdated := false } sampleMod [olderRelease]
    sampleRelease { segments := [1, 0, 0] } { segments := [1, 0, 1] } rfl rfl rfl rfl rfl).2

/-- Claim C5 fails on version strings that differ but parse to equal versions:
the local version `1.0` and the last release version `1.0.0` both parse, to the
segments 1, 0, 0, and the body of the check-update loop ends normally without a
single call: no download is issued. -/
theorem version_strings_differ_no_update :
    shortLocal.Version ≠ olderRelease.Version ∧
    goVersion.NewVersion shortLocal.Version = .ok { segments := [1, 0, 0] } ∧
    goVersion.NewVersion olderRelease.Version = .ok { segments := [1, 0, 0] } ∧
    (checkUpdate goVersion sampleEnv defaultConfig [("alien-biomes".toList, currentMod)]
      shortLocal { world := sampleWorld, isModUpdated := false }).panicValue = none ∧
    ((checkUpdate goVersion sampleEnv defaultConfig [("alien-biomes".toList, currentMod)]
      shortLocal { world := sampleWorld, isModUpdated := false }).worldWith
        RunState.world).trace = [] ∧
    (checkUpdate goVersion sampleEnv defaultConfig [("alien-biomes".toList, currentMod)]
      shortLocal { world := sampleWorld, isModUpdated := false }).finalState.isModUpdated =
        false := by
  refine ⟨by decide, rfl, rfl, by decide, by decide, by decide⟩

theorem restart_exactly_once_witness :
    (main goVersion sampleEnv defaultConfig sampleFs).finalWorld.trace.count
      (restartCommand defaultConfig) = 1 := by
  have h := (restart_exactly_once goVersion sampleEnv defaultConfig sampleFs
    { fs := sampleFs,
      trace := [.readDir defaultConfig.modDir, .log ("Getting info from ".toList ++ BaseURL),
        .getModInfo ["alien-biomes".toList]] }
    [("alien-biomes".toList, sampleLocal)] [("alien-biomes".toList, sampleMod)]
    (checkUpdates goVersion sampleEnv defaultConfig [("alien-biomes".toList, sampleMod)]
      [sampleLocal]
      { world :=
          { fs := sampleFs,
            trace := [.readDir defaultConfig.modDir,
              .log ("Getting info from ".toList ++ BaseURL),
              .getModInfo ["alien-biomes".toList]] },
        isModUpdated := false }).finalState rfl rfl).2.2.2
  rw [h]
  decide

theorem updateServer_order_witness :
    updateServer sampleEnv defaultConfig.composePath defaultConfig.composeFilePath
        defaultConfig.serviceName sampleWorld =
      ({ fs := sampleWorld.fs,
         trace := sampleWorld.trace ++
           [pullCommand defaultConfig.composePath defaultConfig.composeFilePath
              defaultConfig.serviceName,
            upCommand defaultConfig.composePath defaultConfig.composeFilePath
              defaultConfig.serviceName] }, none) ∧
    updateServer pullFailsEnv defaultConfig.composePath defaultConfig.composeFilePath
        defaultConfig.serviceName sampleWorld =
      ({ fs := sampleWorld.fs,
         trace := sampleWorld.trace ++
           [pullCommand defaultConfig.composePath defaultConfig.composeFilePath
              defaultConfig.serviceName] }, some "exit status 1".toList) :=
  ⟨(updateServer_order sampleEnv defaultConfig.composePath defaultConfig.composeFilePath
      defaultConfig.serviceName sampleWorld).2.1 rfl,
    (updateServer_order pullFailsEnv defaultConfig.composePath defaultConfig.composeFilePath
      defaultConfig.serviceName sampleWorld).1 "exit status 1".toList rfl⟩

theorem missing_registry_entry_witness :
    checkUpdates goVersion sampleEnv defaultConfig [] ([] ++ sampleLocal :: [])
      { world := sampleWorld, isModUpdated := false } =
      .panicked sampleWorld (.err none) :=
  (missing_registry_entry goVersion sampleEnv defaultConfig [] sampleLocal
    { segments := [1, 0, 0] } rfl rfl).2.1 [] [] { world := sampleWorld, isModUpdated := false }
    { world := sampleWorld, isModUpdated := false } rfl

theorem empty_releases_abort_witness :
    checkUpdate goVersion sampleEnv defaultConfig [("alien-biomes".toList, emptyMod)]
      sampleLocal { world := sampleWorld, isModUpdated := false } =
      .panicked sampleWorld (.indexOutOfRange (-1) 0) :=
  (empty_releases_abort goVersion sampleEnv defaultConfig [("alien-biomes".toList, emptyMod)]
    sampleLocal emptyMod { segments := [1, 0, 0] } rfl rfl rfl).1
    { world := sampleWorld, isModUpdated := false }

end FactorioAutoUpdate
